import Mathlib

/-!
Verification of the client-side table/plot state-synchronization engine of
the data_plotter repository (src/static/app.ts), as a shallow embedding in
Lean 4.  Rows are ordered association lists (modelling JS object key order),
JS numbers are rationals extended with NaN and the two infinities, and each
DOM event handler of app.ts becomes a pure function on an explicit
application state (headers = the data-column attributes of the th elements,
tableData, columnCounter, and the three axis select values).
-/

namespace DataPlotter

/-- Model of a JS number: a finite rational, NaN, or one of the infinities.
(Finite doubles are modelled as exact rationals; every literal appearing in
the claims is exactly representable.) -/
inductive JNum where
  | nan
  | inf
  | negInf
  | fin (q : ℚ)
deriving DecidableEq, Repr

/-- Model of a cell value in a Row: the Date column holds a string, every
other column holds a number (interface RowData, app.ts lines 8-11). -/
inductive Value where
  | vStr (s : String)
  | vNum (n : JNum)
deriving DecidableEq, Repr

/-- Model of a Row object: an ordered association list of property names to
values, in JS insertion order. -/
abbrev Row := List (String × Value)

/-- Property names of a row, in order. -/
def rowKeys (r : Row) : List String := r.map (·.1)

/-- Model of JS property read r[k]: none models undefined. -/
def getProp (r : Row) (k : String) : Option Value :=
  (r.find? (fun p => p.1 = k)).map (·.2)

/-- Model of JS property write r[k] = v: an existing key keeps its position,
a new key is appended at the end. -/
def setProp (r : Row) (k : String) (v : Value) : Row :=
  if r.any (fun p => p.1 = k) then r.map (fun p => if p.1 = k then (k, v) else p)
  else r ++ [(k, v)]

/-- Model of JS delete r[k]. -/
def delProp (r : Row) (k : String) : Row := r.filter (fun p => p.1 ≠ k)

/-! ## String and number primitives -/

/-- Numeric value of a list of decimal digit characters. -/
def digitsToNat (l : List Char) : Nat :=
  l.foldl (fun acc c => acc * 10 + (c.toNat - 48)) 0

/-- Model of String.prototype.trim: strip leading and trailing whitespace. -/
def jsTrim (s : String) : String :=
  String.mk (((s.data.dropWhile Char.isWhitespace).reverse.dropWhile Char.isWhitespace).reverse)

/-- Model of the JS regular expression test /^\d{4}-\d{2}-\d{2}$/ used by the
Date-cell validation (app.ts line 274). -/
def datePattern (s : String) : Bool :=
  match s.data with
  | [a, b, c, d, e, f, g, h, i, j] =>
    a.isDigit && b.isDigit && c.isDigit && d.isDigit && e = '-' &&
    f.isDigit && g.isDigit && h = '-' && i.isDigit && j.isDigit
  | _ => false

/-- Exponent written after the mantissa of a decimal literal, 0 when the
e/E is not followed by digits (parseFloat then keeps only the mantissa
prefix). -/
def parseExpPart (rest2 : List Char) : Int :=
  match rest2 with
  | 'e' :: '+' :: t2 =>
    if (t2.takeWhile Char.isDigit).isEmpty then 0 else (digitsToNat (t2.takeWhile Char.isDigit) : Int)
  | 'E' :: '+' :: t2 =>
    if (t2.takeWhile Char.isDigit).isEmpty then 0 else (digitsToNat (t2.takeWhile Char.isDigit) : Int)
  | 'e' :: '-' :: t2 =>
    if (t2.takeWhile Char.isDigit).isEmpty then 0 else -(digitsToNat (t2.takeWhile Char.isDigit) : Int)
  | 'E' :: '-' :: t2 =>
    if (t2.takeWhile Char.isDigit).isEmpty then 0 else -(digitsToNat (t2.takeWhile Char.isDigit) : Int)
  | 'e' :: t2 =>
    if (t2.takeWhile Char.isDigit).isEmpty then 0 else (digitsToNat (t2.takeWhile Char.isDigit) : Int)
  | 'E' :: t2 =>
    if (t2.takeWhile Char.isDigit).isEmpty then 0 else (digitsToNat (t2.takeWhile Char.isDigit) : Int)
  | _ => 0

/-- Mantissa-and-exponent part of the parseFloat model, applied after
whitespace and sign have been stripped: longest prefix of the form
digits [ . digits ] [ e/E [sign] digits ], none when no digit is found.
The literal's exact value is returned as a reduced rational, assembled from
the integer mantissa digitsToNat (ip ++ fp) scaled by ten to the power
exponent minus fraction length. -/
def parseFloatCore (l : List Char) : Option ℚ :=
  let ip := l.takeWhile Char.isDigit
  let rest1 := l.dropWhile Char.isDigit
  let fp : List Char :=
    match rest1 with
    | '.' :: t => t.takeWhile Char.isDigit
    | _ => []
  let rest2 : List Char :=
    match rest1 with
    | '.' :: t => t.dropWhile Char.isDigit
    | _ => rest1
  if ip.isEmpty && fp.isEmpty then none
  else
    let m : Int := (digitsToNat (ip ++ fp) : Int)
    let e : Int := parseExpPart rest2 - (fp.length : Int)
    some (if 0 ≤ e then ((m * (10 : Int) ^ e.toNat : Int) : ℚ)
          else mkRat m ((10 : Nat) ^ (-e).toNat))

/-- Model of parseFloat after the optional sign: an Infinity literal or a
decimal literal prefix; anything else is NaN. -/
def parseFloatAux (neg : Bool) (l : List Char) : JNum :=
  if "Infinity".data.isPrefixOf l then (if neg then JNum.negInf else JNum.inf)
  else
    match parseFloatCore l with
    | none => JNum.nan
    | some q => JNum.fin (if neg then mkRat (-q.num) q.den else q)

/-- Model of the JS global parseFloat: skip leading whitespace, optional
sign, then the longest decimal-literal prefix; NaN when none exists. -/
def parseFloat (s : String) : JNum :=
  match s.data.dropWhile Char.isWhitespace with
  | '-' :: t => parseFloatAux true t
  | '+' :: t => parseFloatAux false t
  | l => parseFloatAux false l

/-- Model of the JS global parseInt (radix 10, as used on the decimal
data-row-index attribute strings this app writes): skip whitespace, optional
sign, then a nonempty run of decimal digits; none models NaN. -/
def parseIntJS (s : String) : Option Int :=
  match s.data.dropWhile Char.isWhitespace with
  | '-' :: t =>
    if (t.takeWhile Char.isDigit).isEmpty then none
    else some (-(digitsToNat (t.takeWhile Char.isDigit) : Int))
  | '+' :: t =>
    if (t.takeWhile Char.isDigit).isEmpty then none
    else some ((digitsToNat (t.takeWhile Char.isDigit) : Int))
  | l =>
    if (l.takeWhile Char.isDigit).isEmpty then none
    else some ((digitsToNat (l.takeWhile Char.isDigit) : Int))

/-- Decimal digit string of the magnitude of a rational whose reduced
denominator divides a power of ten (every number produced by the parseFloat
model from a plain decimal literal has this form), used by the Number
toString model.  The fraction is rendered with the least k such that the
denominator divides ten to the k. -/
def ratDecimalAux (q : ℚ) : String :=
  if q.den = 1 then q.num.natAbs.repr
  else
    match (List.range 40).find? (fun k => (10 : Nat) ^ k % q.den = 0) with
    | some k =>
      let n := q.num.natAbs * ((10 : Nat) ^ k / q.den)
      let s := n.repr
      let s := String.mk (List.replicate (k + 1 - s.length) '0') ++ s
      let ds := s.data
      String.mk (ds.take (ds.length - k)) ++ "." ++ String.mk (ds.drop (ds.length - k))
    | none => q.num.natAbs.repr ++ "/" ++ q.den.repr

/-- Model of Number.prototype.toString for the magnitudes this app handles
(no exponent form). -/
def jnumToString : JNum → String
  | JNum.nan => "NaN"
  | JNum.inf => "Infinity"
  | JNum.negInf => "-Infinity"
  | JNum.fin q => (if q.num < 0 then "-" else "") ++ ratDecimalAux q

/-- Model of v.toString() on a row value (a string value yields itself). -/
def valueToString : Value → String
  | Value.vStr s => s
  | Value.vNum n => jnumToString n

/-! ## Calendar-date arithmetic (model of the platform Date object on the
YYYY-MM-DD strings this app stores) -/

/-- Gregorian leap-year test. -/
def isLeap (y : Int) : Bool := (y % 4 = 0 && y % 100 ≠ 0) || y % 400 = 0

/-- Days in a Gregorian month. -/
def daysInMonth (y m : Int) : Int :=
  if m = 2 then (if isLeap y then 29 else 28)
  else if m = 4 || m = 6 || m = 9 || m = 11 then 30
  else 31

/-- Days from the epoch 1970-01-01 of a civil date (standard days-from-civil
computation with floor division). -/
def civilToDays (y m d : Int) : Int :=
  let yy := if m ≤ 2 then y - 1 else y
  let era := yy / 400
  let yoe := yy - era * 400
  let mp := (m + 9) % 12
  let doy := (153 * mp + 2) / 5 + d - 1
  let doe := yoe * 365 + yoe / 4 - yoe / 100 + doy
  era * 146097 + doe - 719468

/-- Civil date (year, month, day) of an epoch-day index (inverse of
civilToDays). -/
def daysToCivil (z0 : Int) : Int × Int × Int :=
  let z := z0 + 719468
  let era := z / 146097
  let doe := z - era * 146097
  let yoe := (doe - doe / 1460 + doe / 36524 - doe / 146096) / 365
  let y := yoe + era * 400
  let doy := doe - (365 * yoe + yoe / 4 - yoe / 100)
  let mp := (5 * doy + 2) / 153
  let d := doy - (153 * mp + 2) / 5 + 1
  let m := mp + (if mp < 10 then 3 else -9)
  (if m ≤ 2 then y + 1 else y, m, d)

/-- Left-pad the decimal representation of a nonnegative integer with zeros. -/
def padNum (width : Nat) (n : Int) : String :=
  let s := n.natAbs.repr
  String.mk (List.replicate (width - s.length) '0') ++ s

/-- YYYY-MM-DD string of an epoch-day index (the date part of
Date.prototype.toISOString). -/
def dayToISO (z : Int) : String :=
  let c := daysToCivil z
  padNum 4 c.1 ++ "-" ++ padNum 2 c.2.1 ++ "-" ++ padNum 2 c.2.2

/-- Epoch-day index of a YYYY-MM-DD string, none when the string is not a
well-formed calendar date (model of the platform Date parser on the
date-only strings this app stores; an out-of-range component gives an
Invalid Date). -/
def parseISODate (s : String) : Option Int :=
  match s.data with
  | [a, b, c, d, '-', e, f, '-', g, h] =>
    if (a.isDigit && b.isDigit && c.isDigit && d.isDigit &&
        e.isDigit && f.isDigit && g.isDigit && h.isDigit) then
      let y : Int := (digitsToNat [a, b, c, d] : Int)
      let m : Int := (digitsToNat [e, f] : Int)
      let dd : Int := (digitsToNat [g, h] : Int)
      if 1 ≤ m ∧ m ≤ 12 ∧ 1 ≤ dd ∧ dd ≤ daysInMonth y m then
        some (civilToDays y m dd)
      else none
    else none
  | _ => none

/-- Model of new Date(s).getTime() on a stored Date string: epoch
milliseconds, NaN for an unparseable string. -/
def dateGetTime (s : String) : JNum :=
  match parseISODate s with
  | some z => JNum.fin ((z * 86400000 : Int) : ℚ)
  | none => JNum.nan

/-- Model of getTodayLocal (app.ts lines 32-35): the device's local calendar
date is an epoch-day index localDay, the device timezone is tzEastMin
minutes east of UTC; new Date(y, m, d) is local midnight, whose UTC epoch
minute is localDay * 1440 - tzEastMin, and toISOString renders the UTC
calendar date of that instant. -/
def getTodayLocal (localDay : Int) (tzEastMin : Int) : String :=
  dayToISO ((localDay * 1440 - tzEastMin) / 1440)

/-! ## Application state

The mutable client state of app.ts: the global tableData and columnCounter,
the data-column attributes of the rendered header cells (the live source the
Column Registry reads), and the three axis select elements.  Each select
element carries its current option list (the option values appended by the
last updateDropdownSelectors rebuild) and its current value; per the HTML
select semantics, assigning a value that matches no option leaves the
element with no selected option, so its value reads back as the empty
string. -/

structure AppState where
  headers : List String
  tableData : List Row
  columnCounter : Nat
  xAxis : String
  yAxis1 : String
  yAxis2 : String
  xOptions : List String
  y1Options : List String
  y2Options : List String
deriving DecidableEq, Repr

/-- Model of getColumnHeaders (app.ts lines 485-507): the DOM header
attributes when present and all nonempty, else the first row's keys, else
the built-in default. -/
def getColumnHeaders (s : AppState) : List String :=
  if s.headers ≠ [] ∧ ∀ c ∈ s.headers, c ≠ "" then s.headers
  else
    match s.tableData with
    | r :: _ => rowKeys r
    | [] => ["Date", "Variable 1", "Variable 2"]

/-- JS a || b on strings (empty string is falsy). -/
def jsOrS (a b : String) : String := if a = "" then b else a

/-- JS l[0] read where an absent element (undefined) is falsy in the
surrounding || chain. -/
def head0 (l : List String) : String := l.headD ""

/-- Effect of assigning HTMLSelectElement.value: when some option has the
assigned value it becomes the selection, otherwise no option is selected and
the value property reads back as the empty string. -/
def setSelectValue (options : List String) (v : String) : String :=
  if v ∈ options then v else ""

/-- Model of updateDropdownSelectors (app.ts lines 710-772): rebuild the
option lists from the Column Registry (all columns for X, the non-Date
columns for Y1 and Y2) and resolve each selection from the desired value
(none models an omitted argument).  Every value assignment goes through
setSelectValue against the freshly rebuilt option list of that select; the
Y2 fallback filters on the Y1 select's value as read back after its own
assignment. -/
def updateDropdownSelectors (s : AppState)
    (desiredX desiredY1 desiredY2 : Option String) : AppState :=
  let columnNames := getColumnHeaders s
  let nonDateColumns := columnNames.filter (fun c => c ≠ "Date")
  let x :=
    match desiredX with
    | some v => if v ≠ "" ∧ v ∈ columnNames then setSelectValue columnNames v
                else setSelectValue columnNames "Date"
    | none => setSelectValue columnNames "Date"
  let y1default :=
    setSelectValue nonDateColumns (jsOrS (head0 nonDateColumns) (head0 columnNames))
  let y1 :=
    match desiredY1 with
    | some v => if v ≠ "" ∧ v ∈ nonDateColumns then setSelectValue nonDateColumns v
                else y1default
    | none => y1default
  let availableColumns := nonDateColumns.filter (fun c => c ≠ y1)
  let y2default := setSelectValue nonDateColumns (jsOrS (head0 availableColumns)
      (jsOrS (head0 nonDateColumns) (head0 columnNames)))
  let y2 :=
    match desiredY2 with
    | some v => if v ≠ "" ∧ v ∈ nonDateColumns then setSelectValue nonDateColumns v
                else y2default
    | none => y2default
  { s with xAxis := x, yAxis1 := y1, yAxis2 := y2,
           xOptions := columnNames, y1Options := nonDateColumns,
           y2Options := nonDateColumns }

/-- Model of addColumn (app.ts lines 427-480): synthesize "Variable n" from
the counter, append a header cell, give every existing row the value 0 for
the new key, then rebuild the dropdowns with no preferred values. -/
def addColumn (s : AppState) : AppState :=
  let newColumnKey := "Variable " ++ toString s.columnCounter
  let s1 : AppState :=
    { s with
      columnCounter := s.columnCounter + 1
      headers := s.headers ++ [newColumnKey]
      tableData := s.tableData.map (fun row => setProp row newColumnKey (Value.vNum (JNum.fin 0))) }
  updateDropdownSelectors s1 none none none

/-- Model of the per-column value computation in addRow (app.ts line 195):
a non-empty, non-whitespace input text is parsed with parseFloat, anything
else coerces to 0. -/
def addRowValue (value : String) : Value :=
  if value ≠ "" ∧ jsTrim value ≠ "" then Value.vNum (parseFloat value)
  else Value.vNum (JNum.fin 0)

/-- Model of addRow (app.ts lines 175-225): an empty Date input defaults to
getTodayLocal, one value is read per non-Date registry column (colValue k is
the text of the input element for column k, the empty string when the
element is missing), and the new row is appended.  The device clock enters
as the local epoch-day index and the timezone offset. -/
def addRow (s : AppState) (dateValue : String) (colValue : String → String)
    (localDay tzEastMin : Int) : AppState :=
  let date := if dateValue = "" then getTodayLocal localDay tzEastMin else dateValue
  let columnOrder := getColumnHeaders s
  let newRow : Row :=
    columnOrder.foldl
      (fun r key => if key ≠ "Date" then setProp r key (addRowValue (colValue key)) else r)
      [("Date", Value.vStr date)]
  { s with tableData := s.tableData ++ [newRow] }

/-! ## Cell-edit blur handler -/

/-- Outcome of one cell-edit blur commit: the Row Store afterwards, the
cell's displayed text afterwards, and whether a replace_data call was
issued. -/
structure BlurResult where
  tableData : List Row
  display : String
  fetched : Bool
deriving DecidableEq, Repr

/-- Commit phase of the blur handler (app.ts lines 289-324): copy
tableData[rowIndex] (spreading undefined yields an empty object for a
negative index), store the validated value, write the row back (a negative
index writes a non-element array property, leaving the rows untouched;
an index at or beyond the length is unreachable here because the guard
already returned), issue replace_data, and on a failed call restore the
cell text and the row from the render-time closure row. -/
def cellCommit (tableData : List Row) (renderRow : Row) (columnName : String)
    (idx : Option Int) (storedVal : Value) (acceptDisplay : String)
    (backendOk : Bool) : Option BlurResult :=
  let base : Row :=
    match idx with
    | some i => if h : 0 ≤ i ∧ i.toNat < tableData.length then tableData.get ⟨i.toNat, h.2⟩ else []
    | none => []
  let updatedRow := setProp base columnName storedVal
  let assign : List Row → Row → List Row := fun rows r =>
    match idx with
    | some i => if 0 ≤ i then rows.set i.toNat r else rows
    | none => rows
  let rows1 := assign tableData updatedRow
  if backendOk then some ⟨rows1, acceptDisplay, true⟩
  else
    (getProp renderRow columnName).map (fun v =>
      ⟨assign rows1 renderRow, valueToString v, true⟩)

/-- Value of the expression parentRow.getAttribute('data-row-index') || '-1'
(app.ts line 263): getAttribute yields null for a missing attribute, and
null and the empty string are falsy. -/
def attrString : Option String → String
  | none => "-1"
  | some a => if a = "" then "-1" else a

/-- Revert outcome of the blur handler: the cell text is set back to the
render-time closure row's value for this column, the Row Store is untouched
and no backend call is issued.  Yields none when row[columnName] is
undefined, modelling the TypeError undefined.toString() would throw. -/
def cellRevert (tableData : List Row) (renderRow : Row) (columnName : String) :
    Option BlurResult :=
  (getProp renderRow columnName).map (fun v => ⟨tableData, valueToString v, false⟩)

/-- Guard of the blur handler (app.ts line 265): rowIndex === -1 or
rowIndex >= tableData.length (none models NaN, which fails both
comparisons). -/
def rowIndexInvalid (tableData : List Row) : Option Int → Bool
  | none => false
  | some i => i = -1 || (tableData.length : Int) ≤ i

/-- Validation-and-commit phase of the blur handler, reached when the guard
passed. -/
def cellBlurBody (tableData : List Row) (renderRow : Row) (columnName : String)
    (rawText : String) (rowIndexN : Option Int) (backendOk : Bool) :
    Option BlurResult :=
  let newValue := jsTrim rawText
  if columnName = "Date" then
    if datePattern newValue then
      cellCommit tableData renderRow columnName rowIndexN (Value.vStr newValue) rawText backendOk
    else cellRevert tableData renderRow columnName
  else
    match parseFloat newValue with
    | JNum.nan => cellRevert tableData renderRow columnName
    | num =>
      cellCommit tableData renderRow columnName rowIndexN (Value.vNum num)
        (jnumToString num) backendOk

/-- Model of the per-cell blur handler attached by renderTableRows (app.ts
lines 259-325).  renderRow is the closure variable row captured at render
time, attr the data-row-index attribute (none when absent; getAttribute
yields null, which is falsy), rawText the cell text at blur, backendOk the
outcome of the replace_data call.  none models a thrown TypeError
(row[columnName] undefined). -/
def cellBlur (tableData : List Row) (renderRow : Row) (columnName : String)
    (rawText : String) (attr : Option String) (backendOk : Bool) : Option BlurResult :=
  let rowIndexN := parseIntJS (attrString attr)
  if rowIndexInvalid tableData rowIndexN then
    cellRevert tableData renderRow columnName
  else cellBlurBody tableData renderRow columnName rawText rowIndexN backendOk

/-! ## Column rename blur handler -/

/-- Outcome of one header blur: the state afterwards and the header's
displayed text afterwards. -/
structure RenameResult where
  state : AppState
  display : String
deriving DecidableEq, Repr

/-- Model of the header blur handler installed by setupColumnTitleListeners
(app.ts lines 526-621), firing on the header element at position i, whose
current data-column attribute is the old key and whose text content at blur
is rawText.  The mid-handler assignments select.value = newTitle run while
the selects still hold the option lists of the last rebuild, so they go
through setSelectValue against those current options; the guard has already
established that the new name is not an existing column, so whenever the
options mirror the registry the assignment clears the selection.  (The
conditional mid-handler updatePlot call reads state without changing it and
is therefore not modelled.) -/
def renameBlur (s : AppState) (i : Nat) (rawText : String) : RenameResult :=
  let oldKey := s.headers.getD i ""
  let newTitle := jsTrim rawText
  if newTitle = "" ∨ oldKey = "" then
    ⟨s, if oldKey = "" then rawText else oldKey⟩
  else if newTitle = oldKey then ⟨s, rawText⟩
  else
    let newKey := newTitle
    let existingColumns := getColumnHeaders s
    if newKey = "Date" ∨ (newKey ≠ oldKey ∧ newKey ∈ existingColumns) then
      ⟨s, oldKey⟩
    else
      let x1 := if s.xAxis = oldKey then setSelectValue s.xOptions newTitle else s.xAxis
      let y11 := if s.yAxis1 = oldKey then setSelectValue s.y1Options newTitle else s.yAxis1
      let y21 := if s.yAxis2 = oldKey then setSelectValue s.y2Options newTitle else s.yAxis2
      let currentX := x1
      let currentY1 := y11
      let currentY2 := y21
      let updatedData := s.tableData.map (fun row =>
        match getProp row oldKey with
        | some v => delProp (setProp row newKey v) oldKey
        | none => row)
      let s2 : AppState :=
        { s with
          xAxis := x1, yAxis1 := y11, yAxis2 := y21
          tableData := updatedData
          headers := s.headers.set i newKey }
      let s3 := updateDropdownSelectors s2
        (some (if currentX = oldKey then newKey else currentX))
        (some (if currentY1 = oldKey then newKey else currentY1))
        (some (if currentY2 = oldKey then newKey else currentY2))
      ⟨s3, rawText⟩

/-! ## Plot projection -/

/-- Model of new Date(x).getTime() applied to a cell value (a number is an
epoch-millisecond timestamp, undefined gives an Invalid Date). -/
def dateGetTimeV : Option Value → JNum
  | some (Value.vStr s) => dateGetTime s
  | some (Value.vNum n) => n
  | none => JNum.nan

/-- Model of JS ToNumber applied to a cell value under the binary minus
operator (unparseable strings and undefined give NaN; the whole-string
numeric parse reuses the parseFloat model, which agrees with ToNumber on the
number-shaped strings this app stores). -/
def toNumberV : Option Value → JNum
  | some (Value.vNum n) => n
  | some (Value.vStr s) =>
    if jsTrim s = "" then JNum.fin 0
    else
      match parseFloat s with
      | JNum.nan => JNum.nan
      | n => n
  | none => JNum.nan

/-- Sort key of a row for the plot (app.ts lines 642-647): epoch time when
the X axis is Date, the numeric value otherwise. -/
def xKey (xAxis : String) (r : Row) : JNum :=
  if xAxis = "Date" then dateGetTimeV (getProp r xAxis)
  else toNumberV (getProp r xAxis)

/-- Difference of two rationals, assembled with mkRat from the numerators
and denominators (equal to ordinary subtraction, see qSub_eq_sub). -/
def qSub (a b : ℚ) : ℚ := mkRat (a.num * b.den - b.num * a.den) (a.den * b.den)

/-- JS subtraction on numbers. -/
def jnumSub : JNum → JNum → JNum
  | JNum.nan, _ => JNum.nan
  | _, JNum.nan => JNum.nan
  | JNum.inf, JNum.inf => JNum.nan
  | JNum.inf, _ => JNum.inf
  | JNum.negInf, JNum.negInf => JNum.nan
  | JNum.negInf, _ => JNum.negInf
  | JNum.fin _, JNum.inf => JNum.negInf
  | JNum.fin _, JNum.negInf => JNum.inf
  | JNum.fin a, JNum.fin b => JNum.fin (qSub a b)

/-- Strict positivity of a comparator result under ECMAScript SortCompare
(a NaN comparator result is coerced to +0, hence not positive). -/
def jnumIsPos : JNum → Bool
  | JNum.fin q => decide (0 < q)
  | JNum.inf => true
  | _ => false

/-- Element order used by the plot sort: a may precede b when the comparator
a - b is not positive. -/
def sortLeBy (key : Row → JNum) (a b : Row) : Bool :=
  !(jnumIsPos (jnumSub (key a) (key b)))

/-- Ordered insertion used by the sort model. -/
def jsOrderedInsert {α : Type} (le : α → α → Bool) (a : α) : List α → List α
  | [] => [a]
  | b :: l => if le a b then a :: b :: l else b :: jsOrderedInsert le a l

/-- Model of Array.prototype.sort: a stable insertion sort, which realizes
the sorted permutation ECMAScript requires for a consistent comparator. -/
def jsSortImpl {α : Type} (le : α → α → Bool) : List α → List α
  | [] => []
  | a :: l => jsOrderedInsert le a (jsSortImpl le l)

/-- Sorted copy of the dataset produced by updatePlot (app.ts line 642). -/
def plotSortedData (s : AppState) : List Row :=
  jsSortImpl (sortLeBy (xKey s.xAxis)) s.tableData

/-- Series fed to the chart by updatePlot. -/
structure PlotOutput where
  xSeries : List (Option Value)
  y1Series : List (Option Value)
  y2Series : List (Option Value)
deriving DecidableEq, Repr

/-- Model of updatePlot (app.ts lines 632-704): read the three selections,
sort a copy of the dataset by the X column, and project the two traces.  The
state is returned unchanged alongside the chart input. -/
def updatePlot (s : AppState) : AppState × PlotOutput :=
  (s,
    ⟨(plotSortedData s).map (fun d => getProp d s.xAxis),
     (plotSortedData s).map (fun d => getProp d s.yAxis1),
     (plotSortedData s).map (fun d => getProp d s.yAxis2)⟩)

/-! ## Load and operation sequences -/

/-- Model of the DOMContentLoaded initialization (app.ts lines 39-109):
hydrate tableData, derive the columns with Date first, set the counter to
the column count, render headers, and build the dropdowns with no preferred
values. -/
def loadState (data : List Row) : AppState :=
  let columns :=
    match data with
    | r :: _ => "Date" :: (rowKeys r).filter (fun c => c ≠ "Date")
    | [] => ["Date", "Variable 1", "Variable 2"]
  let s0 : AppState :=
    { headers := columns, tableData := data, columnCounter := columns.length
      xAxis := "", yAxis1 := "", yAxis2 := ""
      xOptions := [], y1Options := [], y2Options := [] }
  updateDropdownSelectors s0 none none none

/-- One user-driven column operation: pressing Add Column, or committing a
header edit (blur with the given raw text on the header at position i). -/
inductive ColumnOp where
  | add
  | rename (i : Nat) (rawText : String)
deriving DecidableEq, Repr

/-- Apply one column operation.  An edit-blur can only originate from an
existing header element that is contenteditable, and the Date header is
rendered with contenteditable false (app.ts line 72), so a rename event on a
missing or Date header does not occur. -/
def applyOp (s : AppState) (op : ColumnOp) : AppState :=
  match op with
  | ColumnOp.add => addColumn s
  | ColumnOp.rename i rawText =>
    if i < s.headers.length ∧ s.headers.getD i "" ≠ "Date" then
      (renameBlur s i rawText).state
    else s

/-- Run a sequence of column operations. -/
def runOps (s : AppState) (ops : List ColumnOp) : AppState :=
  ops.foldl applyOp s

/-- The identifier addColumn would synthesize next is not already a column
identifier. -/
def addFresh (s : AppState) : Bool :=
  !(s.headers.contains ("Variable " ++ toString s.columnCounter))

/-- Every addColumn in the sequence synthesizes an identifier that is fresh
at the moment it runs. -/
def opsSafe (s : AppState) : List ColumnOp → Bool
  | [] => true
  | op :: rest =>
    (match op with
     | ColumnOp.add => addFresh s
     | ColumnOp.rename _ _ => true) && opsSafe (applyOp s op) rest

/-- Column identity invariant of the spec: the header attributes form a
nonempty duplicate-free list of nonempty identifiers with Date first, and
every Row's key set is exactly that of the registry. -/
structure Inv (s : AppState) : Prop where
  nonempty : s.headers ≠ []
  noBlank : ∀ c ∈ s.headers, c ≠ ""
  nodup : s.headers.Nodup
  dateFirst : s.headers.head? = some "Date"
  rows : ∀ r ∈ s.tableData, (rowKeys r).Nodup ∧ ∀ k, k ∈ rowKeys r ↔ k ∈ s.headers

/-! ## Basic lemmas about row property access -/

theorem getProp_isSome_of_mem {r : Row} {k : String} (h : k ∈ rowKeys r) :
    ∃ v, getProp r k = some v := by
  unfold rowKeys at h
  obtain ⟨p, hp, hpk⟩ := List.mem_map.mp h
  unfold getProp
  cases hfind : r.find? (fun q => q.1 = k) with
  | none =>
    exfalso
    have := List.find?_eq_none.mp hfind p hp
    simp [hpk] at this
  | some q => exact ⟨q.2, rfl⟩

theorem getProp_eq_none_of_not_mem {r : Row} {k : String} (h : k ∉ rowKeys r) :
    getProp r k = none := by
  unfold getProp
  cases hfind : r.find? (fun q => q.1 = k) with
  | none => rfl
  | some q =>
    exfalso
    have hq := List.find?_some hfind
    have hmem := List.mem_of_find?_eq_some hfind
    apply h
    unfold rowKeys
    exact List.mem_map.mpr ⟨q, hmem, by simpa using hq⟩

theorem setProp_append_of_not_mem {r : Row} {k : String} (h : k ∉ rowKeys r)
    (v : Value) : setProp r k v = r ++ [(k, v)] := by
  unfold setProp
  rw [if_neg]
  intro hany
  obtain ⟨p, hp, hpk⟩ := List.any_eq_true.mp hany
  exact h (List.mem_map.mpr ⟨p, hp, by simpa using hpk⟩)

theorem rowKeys_append (r1 r2 : Row) :
    rowKeys (r1 ++ r2) = rowKeys r1 ++ rowKeys r2 := by
  unfold rowKeys; exact List.map_append _ _ _

theorem getProp_append_left {r1 : Row} (r2 : Row) {k : String}
    (h : k ∈ rowKeys r1) : getProp (r1 ++ r2) k = getProp r1 k := by
  unfold getProp
  rw [List.find?_append]
  obtain ⟨v, hv⟩ := getProp_isSome_of_mem h
  unfold getProp at hv
  cases hfind : r1.find? (fun q => q.1 = k) with
  | none => rw [hfind] at hv; simp at hv
  | some q => rfl

theorem getProp_append_right {r1 : Row} (r2 : Row) {k : String}
    (h : k ∉ rowKeys r1) : getProp (r1 ++ r2) k = getProp r2 k := by
  unfold getProp
  rw [List.find?_append]
  have : r1.find? (fun q => q.1 = k) = none := by
    have := getProp_eq_none_of_not_mem h
    unfold getProp at this
    cases hfind : r1.find? (fun q => q.1 = k) with
    | none => rfl
    | some q => rw [hfind] at this; simp at this
  rw [this]
  simp

theorem getProp_setProp_self_of_not_mem {r : Row} {k : String}
    (h : k ∉ rowKeys r) (v : Value) : getProp (setProp r k v) k = some v := by
  rw [setProp_append_of_not_mem h, getProp_append_right _ h]
  unfold getProp
  simp [List.find?]

theorem getProp_setProp_other_of_not_mem {r : Row} {k : String}
    (h : k ∉ rowKeys r) (v : Value) {k2 : String} (hk2 : k2 ≠ k) :
    getProp (setProp r k v) k2 = getProp r k2 := by
  rw [setProp_append_of_not_mem h]
  by_cases hm : k2 ∈ rowKeys r
  · exact getProp_append_left _ hm
  · rw [getProp_append_right _ hm, getProp_eq_none_of_not_mem hm]
    unfold getProp
    simp [List.find?, decide_eq_false (Ne.symm hk2)]

theorem find?_map_replace (r : Row) (k : String) (v : Value) :
    (r.map (fun p => if p.1 = k then (k, v) else p)).find? (fun p => p.1 = k) =
      if r.any (fun p => p.1 = k) then some (k, v) else none := by
  induction r with
  | nil => rfl
  | cons p t ih =>
    rw [List.map_cons, List.any_cons]
    by_cases hp : p.1 = k
    · have hcond : (decide (p.1 = k) || t.any fun p => decide (p.1 = k)) = true := by
        rw [decide_eq_true hp]; rfl
      rw [List.find?_cons_of_pos _ (by simp [if_pos hp]), if_pos hcond, if_pos hp]
    · rw [List.find?_cons_of_neg _ (by rw [if_neg hp]; simpa using hp), ih]
      rw [decide_eq_false hp, Bool.false_or]

theorem find?_map_replace_other (r : Row) (k : String) (v : Value) {k2 : String}
    (hk2 : k2 ≠ k) :
    (r.map (fun p => if p.1 = k then (k, v) else p)).find? (fun p => p.1 = k2) =
      r.find? (fun p => p.1 = k2) := by
  induction r with
  | nil => rfl
  | cons p t ih =>
    rw [List.map_cons]
    by_cases hq : p.1 = k2
    · have hp : ¬ p.1 = k := by rw [hq]; exact hk2
      rw [List.find?_cons_of_pos _ (by rw [if_neg hp]; simpa using hq),
          List.find?_cons_of_pos _ (by simpa using hq), if_neg hp]
    · by_cases hp : p.1 = k
      · rw [List.find?_cons_of_neg _ (by rw [if_pos hp]; simpa using Ne.symm hk2),
            List.find?_cons_of_neg _ (by simpa using hq), ih]
      · rw [List.find?_cons_of_neg _ (by rw [if_neg hp]; simpa using hq),
            List.find?_cons_of_neg _ (by simpa using hq), ih]

theorem getProp_setProp_self (r : Row) (k : String) (v : Value) :
    getProp (setProp r k v) k = some v := by
  unfold setProp
  by_cases hmem : r.any (fun p => p.1 = k)
  · rw [if_pos hmem]
    unfold getProp
    rw [find?_map_replace, if_pos hmem]
    rfl
  · rw [if_neg hmem]
    unfold getProp
    rw [List.find?_append]
    have hnone : r.find? (fun q => q.1 = k) = none := by
      rw [List.find?_eq_none]
      intro p hp
      simp only [decide_eq_true_eq]
      intro hpk
      exact hmem (List.any_eq_true.mpr ⟨p, hp, by simp [hpk]⟩)
    rw [hnone]
    simp [List.find?]

theorem getProp_setProp_other (r : Row) (k : String) (v : Value) {k2 : String}
    (hk2 : k2 ≠ k) : getProp (setProp r k v) k2 = getProp r k2 := by
  unfold setProp
  by_cases hmem : r.any (fun p => p.1 = k)
  · rw [if_pos hmem]
    unfold getProp
    rw [find?_map_replace_other r k v hk2]
  · rw [if_neg hmem]
    unfold getProp
    rw [List.find?_append]
    cases hfind : r.find? (fun q => q.1 = k2) with
    | none => simp [List.find?, decide_eq_false (Ne.symm hk2)]
    | some q => rfl

theorem getProp_delProp_self (r : Row) (k : String) :
    getProp (delProp r k) k = none := by
  unfold getProp delProp
  have hnone : (r.filter (fun p => p.1 ≠ k)).find? (fun q => q.1 = k) = none := by
    rw [List.find?_eq_none]
    intro p hp
    have := (List.mem_filter.mp hp).2
    simpa using this
  rw [hnone]
  rfl

theorem getProp_delProp_other (r : Row) (k : String) {k2 : String}
    (hk2 : k2 ≠ k) : getProp (delProp r k) k2 = getProp r k2 := by
  unfold getProp delProp
  congr 1
  induction r with
  | nil => rfl
  | cons p t ih =>
    by_cases hp : p.1 = k
    · have hpq : ¬ p.1 = k2 := by rw [hp]; exact Ne.symm hk2
      rw [List.filter_cons, if_neg (by simpa using hp),
          List.find?_cons_of_neg _ (by simpa using hpq), ih]
    · rw [List.filter_cons, if_pos (by simpa using hp)]
      by_cases hq : p.1 = k2
      · rw [List.find?_cons_of_pos _ (by simpa using hq),
            List.find?_cons_of_pos _ (by simpa using hq)]
      · rw [List.find?_cons_of_neg _ (by simpa using hq),
            List.find?_cons_of_neg _ (by simpa using hq), ih]

theorem rowKeys_setProp (r : Row) (k : String) (v : Value) :
    rowKeys (setProp r k v) =
      if r.any (fun p => p.1 = k) then rowKeys r else rowKeys r ++ [k] := by
  unfold setProp rowKeys
  by_cases hmem : r.any (fun p => p.1 = k)
  · rw [if_pos hmem, if_pos hmem, List.map_map]
    apply List.map_congr_left
    intro p _
    by_cases hp : p.1 = k <;> simp [hp]
  · rw [if_neg hmem, if_neg hmem]
    simp

theorem rowKeys_delProp (r : Row) (k : String) :
    rowKeys (delProp r k) = (rowKeys r).filter (fun s => s ≠ k) := by
  unfold delProp rowKeys
  induction r with
  | nil => rfl
  | cons p t ih =>
    rw [List.map_cons, List.filter_cons, List.filter_cons]
    by_cases hp : p.1 = k
    · rw [if_neg (by simpa using hp), if_neg (by simpa using hp)]
      exact ih
    · rw [if_pos (by simpa using hp), if_pos (by simpa using hp), List.map_cons, ih]

/-! ## Lemmas about getColumnHeaders and updateDropdownSelectors -/

theorem getColumnHeaders_eq_headers {s : AppState} (hne : s.headers ≠ [])
    (hnb : ∀ c ∈ s.headers, c ≠ "") : getColumnHeaders s = s.headers := by
  unfold getColumnHeaders
  rw [if_pos ⟨hne, hnb⟩]

theorem updateDropdown_headers (s : AppState) (a b c : Option String) :
    (updateDropdownSelectors s a b c).headers = s.headers := rfl

theorem updateDropdown_tableData (s : AppState) (a b c : Option String) :
    (updateDropdownSelectors s a b c).tableData = s.tableData := rfl

theorem updateDropdown_counter (s : AppState) (a b c : Option String) :
    (updateDropdownSelectors s a b c).columnCounter = s.columnCounter := rfl

theorem setSelectValue_mem {l : List String} {v : String} (h : v ∈ l) :
    setSelectValue l v = v := if_pos h

theorem setSelectValue_not_mem {l : List String} {v : String} (h : v ∉ l) :
    setSelectValue l v = "" := if_neg h

/-- A default assignment of the head of a nonempty blank-free sublist of the
option list sticks: the || chain picks the head and the head is an option. -/
theorem setSelect_jsOrS_sublist {l m : List String} (hne : m ≠ [])
    (hsub : ∀ c ∈ m, c ∈ l) (hnb : ∀ c ∈ m, c ≠ "") (b : String) :
    setSelectValue l (jsOrS (head0 m) b) = m.headD "" := by
  obtain ⟨h0, t0, rfl⟩ := List.exists_cons_of_ne_nil hne
  have hh0 : h0 ≠ "" := hnb h0 (List.mem_cons_self _ _)
  show setSelectValue l (jsOrS h0 b) = h0
  rw [show jsOrS h0 b = h0 from if_neg hh0]
  exact setSelectValue_mem (hsub h0 (List.mem_cons_self _ _))

theorem updateDropdown_x_valid (s : AppState) {v : String} (b c : Option String)
    (hv : v ≠ "") (hmem : v ∈ getColumnHeaders s) :
    (updateDropdownSelectors s (some v) b c).xAxis = v := by
  simp only [updateDropdownSelectors]
  rw [if_pos ⟨hv, hmem⟩, setSelectValue_mem hmem]

theorem updateDropdown_y1_valid (s : AppState) (a : Option String) {v : String}
    (c : Option String) (hv : v ≠ "")
    (hmem : v ∈ (getColumnHeaders s).filter (fun x => x ≠ "Date")) :
    (updateDropdownSelectors s a (some v) c).yAxis1 = v := by
  simp only [updateDropdownSelectors]
  rw [if_pos ⟨hv, hmem⟩, setSelectValue_mem hmem]

theorem updateDropdown_y2_valid (s : AppState) (a b : Option String) {v : String}
    (hv : v ≠ "")
    (hmem : v ∈ (getColumnHeaders s).filter (fun x => x ≠ "Date")) :
    (updateDropdownSelectors s a b (some v)).yAxis2 = v := by
  simp only [updateDropdownSelectors]
  rw [if_pos ⟨hv, hmem⟩, setSelectValue_mem hmem]

/-- An X-axis assignment of the empty string matches no option, so the
rebuild falls through to the default branch assigning "Date". -/
theorem updateDropdown_x_empty (s : AppState) (b c : Option String) :
    (updateDropdownSelectors s (some "") b c).xAxis =
      setSelectValue (getColumnHeaders s) "Date" := by
  simp only [updateDropdownSelectors]
  rw [if_neg (fun h => h.1 rfl)]

/-- A Y1-axis assignment of the empty string falls through to the default
branch nonDateColumns[0] || columnNames[0]. -/
theorem updateDropdown_y1_empty (s : AppState) (a c : Option String) :
    (updateDropdownSelectors s a (some "") c).yAxis1 =
      setSelectValue ((getColumnHeaders s).filter (fun x => x ≠ "Date"))
        (jsOrS (head0 ((getColumnHeaders s).filter (fun x => x ≠ "Date")))
          (head0 (getColumnHeaders s))) := by
  simp only [updateDropdownSelectors]
  rw [if_neg (fun h => h.1 rfl)]

/-- A Y2-axis assignment of the empty string falls through to the default
branch, whose candidate pool filters the non-Date columns on the Y1 value
just read back from a successful Y1 assignment. -/
theorem updateDropdown_y2_empty_y1_valid (s : AppState) (a : Option String)
    {v : String} (hv : v ≠ "")
    (hmem : v ∈ (getColumnHeaders s).filter (fun x => x ≠ "Date")) :
    (updateDropdownSelectors s a (some v) (some "")).yAxis2 =
      setSelectValue ((getColumnHeaders s).filter (fun x => x ≠ "Date"))
        (jsOrS
          (head0 (((getColumnHeaders s).filter (fun x => x ≠ "Date")).filter
            (fun x => x ≠ v)))
          (jsOrS (head0 ((getColumnHeaders s).filter (fun x => x ≠ "Date")))
            (head0 (getColumnHeaders s)))) := by
  have hif : (if v ≠ "" ∧ v ∈ (getColumnHeaders s).filter (fun c => c ≠ "Date") then
      setSelectValue ((getColumnHeaders s).filter (fun c => c ≠ "Date")) v
    else setSelectValue ((getColumnHeaders s).filter (fun c => c ≠ "Date"))
      (jsOrS (head0 ((getColumnHeaders s).filter (fun c => c ≠ "Date")))
        (head0 (getColumnHeaders s)))) = v := by
    rw [if_pos ⟨hv, hmem⟩]
    exact setSelectValue_mem hmem
  simp only [updateDropdownSelectors]
  rw [if_neg (fun h => h.1 rfl)]
  simp only [hif]

/-! ## Claim C2: cell edit validation -/

/-- Concrete example row used to instantiate the claims. -/
def exRow : Row :=
  [("Date", Value.vStr "2024-01-01"),
   ("Variable 1", Value.vNum (JNum.fin 5)),
   ("Variable 2", Value.vNum (JNum.fin 2))]

theorem cellBlur_valid_index {tableData : List Row} (renderRow : Row)
    (columnName rawText : String) {attr : Option String} (backendOk : Bool)
    {m : Int} (hm : parseIntJS (attrString attr) = some m) (h0 : 0 ≤ m)
    (hlen : m < (tableData.length : Int)) :
    cellBlur tableData renderRow columnName rawText attr backendOk =
      cellBlurBody tableData renderRow columnName rawText (some m) backendOk := by
  have hfalse : rowIndexInvalid tableData (some m) = false := by
    unfold rowIndexInvalid
    simp only [Bool.or_eq_false_iff, decide_eq_false_iff_not]
    omega
  simp [cellBlur, hm, hfalse]

/-- Claim C2 (amended): a commit on the Date column is accepted exactly when
the trimmed text matches the pattern of four digits, a dash, two digits, a
dash and two digits, and a rejected commit leaves the Row Store unchanged;
the text "2024-13-40" matches that pattern and is therefore accepted and
stored even though it is not a real date; on a non-Date cell, committing
"abc" is rejected with the stored value unchanged and committing "3.5" is
accepted and stored as the number 3.5. -/
theorem cellEdit_validation :
    (∀ (tableData : List Row) (renderRow : Row) (raw : String)
        (attr : Option String) (ok : Bool) (m : Int),
        parseIntJS (attrString attr) = some m → 0 ≤ m →
        m < (tableData.length : Int) → "Date" ∈ rowKeys renderRow →
        ∃ res, cellBlur tableData renderRow "Date" raw attr ok = some res ∧
          (res.fetched = true ↔ datePattern (jsTrim raw) = true) ∧
          (datePattern (jsTrim raw) = false → res.tableData = tableData)) ∧
    cellBlur [exRow] exRow "Variable 1" "abc" (some "0") true =
      some ⟨[exRow], "5", false⟩ ∧
    cellBlur [exRow] exRow "Variable 1" "3.5" (some "0") true =
      some ⟨[setProp exRow "Variable 1" (Value.vNum (JNum.fin (mkRat 7 2)))], "3.5", true⟩ := by
  refine ⟨?_, by decide, by decide⟩
  intro tableData renderRow raw attr ok m hm h0 hlen hkey
  rw [cellBlur_valid_index renderRow "Date" raw ok hm h0 hlen]
  obtain ⟨v, hv⟩ := getProp_isSome_of_mem hkey
  unfold cellBlurBody
  simp only [if_pos rfl]
  by_cases hd : datePattern (jsTrim raw)
  · rw [if_pos hd]
    unfold cellCommit
    cases ok with
    | true => exact ⟨_, rfl, by simp [hd], by simp [hd]⟩
    | false =>
      rw [hv]
      exact ⟨_, rfl, by simp [hd], by simp [hd]⟩
  · rw [if_neg hd]
    unfold cellRevert
    rw [hv]
    refine ⟨_, rfl, ?_, fun _ => rfl⟩
    simp [hd]

/-- Witness for claim C2: the general part applied at a concrete valid
commit. -/
theorem cellEdit_validation_witness :
    ∃ res, cellBlur [exRow] exRow "Date" "2024-06-15" (some "0") true = some res ∧
      (res.fetched = true ↔ datePattern (jsTrim "2024-06-15") = true) := by
  obtain ⟨res, h1, h2, h3⟩ :=
    cellEdit_validation.1 [exRow] exRow "2024-06-15" (some "0") true 0
      (by decide) (by decide) (by decide) (by decide)
  exact ⟨res, h1, h2⟩

/-- Counterexample for claim C2 as frozen: committing "2024-13-40" to the
Date cell is accepted (a replace_data call is issued) and the stored value
changes, contradicting the claimed rejection. -/
theorem cellEdit_badDate_counterexample :
    cellBlur [exRow] exRow "Date" "2024-13-40" (some "0") true =
      some ⟨[setProp exRow "Date" (Value.vStr "2024-13-40")], "2024-13-40", true⟩ ∧
    setProp exRow "Date" (Value.vStr "2024-13-40") ≠ exRow := by
  decide

/-! ## Claims C3 and C4: column rename -/

theorem headers_getD_mem {s : AppState} {i : Nat} (hi : i < s.headers.length) :
    s.headers.getD i "" ∈ s.headers := by
  rw [List.getD_eq_getElem s.headers "" hi]
  exact List.getElem_mem hi

theorem mem_set_iff_of_nodup {l : List String} {a b k : String} {i : Nat}
    (hnd : l.Nodup) (hi : i < l.length) (ha : l.getD i "" = a) :
    k ∈ l.set i b ↔ (k ∈ l ∧ k ≠ a) ∨ k = b := by
  induction l generalizing i with
  | nil => simp at hi
  | cons hd t ih =>
    cases i with
    | zero =>
      have ha2 : hd = a := by simpa using ha
      subst ha2
      rw [List.set_cons_zero]
      constructor
      · intro h
        rcases List.mem_cons.mp h with rfl | h
        · exact Or.inr rfl
        · have hkhd : k ≠ hd := by
            intro hk
            exact (List.nodup_cons.mp hnd).1 (hk ▸ h)
          exact Or.inl ⟨List.mem_cons_of_mem _ h, hkhd⟩
      · intro h
        rcases h with ⟨hk, hne⟩ | rfl
        · rcases List.mem_cons.mp hk with rfl | h
          · exact absurd rfl hne
          · exact List.mem_cons_of_mem _ h
        · exact List.mem_cons_self _ _
    | succ j =>
      have hj : j < t.length := by simpa using hi
      have ha2 : t.getD j "" = a := by simpa using ha
      have hha : hd ≠ a := by
        intro h
        have : a ∈ t :=
          ha2 ▸ headers_getD_mem (s := ⟨t, [], 0, "", "", "", [], [], []⟩) hj
        exact (List.nodup_cons.mp hnd).1 (h ▸ this)
      rw [List.set_cons_succ]
      constructor
      · intro h
        rcases List.mem_cons.mp h with rfl | h
        · exact Or.inl ⟨List.mem_cons_self _ _, hha⟩
        · rcases (ih (List.nodup_cons.mp hnd).2 hj ha2).mp h with ⟨h1, h2⟩ | h1
          · exact Or.inl ⟨List.mem_cons_of_mem _ h1, h2⟩
          · exact Or.inr h1
      · intro h
        rcases h with ⟨hk, hne⟩ | rfl
        · rcases List.mem_cons.mp hk with rfl | h1
          · exact List.mem_cons_self _ _
          · exact List.mem_cons_of_mem _
              ((ih (List.nodup_cons.mp hnd).2 hj ha2).mpr (Or.inl ⟨h1, hne⟩))
        · exact List.mem_cons_of_mem _
            ((ih (List.nodup_cons.mp hnd).2 hj ha2).mpr (Or.inr rfl))

/-- Claim C4: a rename attempt whose trimmed candidate is empty, is "Date",
or equals an existing other column's identifier leaves the whole state (Row
Store, header attributes, axis selections) unchanged and redisplays the old
identifier.  The header being renamed is an existing non-Date header (the
Date header is not contenteditable). -/
theorem renameReject_noop (s : AppState) (i : Nat) (raw A : String)
    (hi : i < s.headers.length) (hA : s.headers.getD i "" = A)
    (hAne : A ≠ "") (hAnD : A ≠ "Date")
    (hbad : jsTrim raw = "" ∨ jsTrim raw = "Date" ∨
      (jsTrim raw ≠ A ∧ jsTrim raw ∈ getColumnHeaders s)) :
    renameBlur s i raw = ⟨s, A⟩ := by
  have _ := hi
  simp only [renameBlur]
  rw [hA]
  rcases hbad with h | h | ⟨hne, hmem⟩
  · rw [if_pos (Or.inl h), if_neg hAne]
  · have h1 : ¬ (jsTrim raw = "" ∨ A = "") := by
      push_neg
      refine ⟨?_, hAne⟩
      rw [h]
      decide
    have h2 : ¬ jsTrim raw = A := by rw [h]; exact Ne.symm hAnD
    rw [if_neg h1, if_neg h2, if_pos (Or.inl h)]
  · by_cases hempty : jsTrim raw = ""
    · rw [if_pos (Or.inl hempty), if_neg hAne]
    · have h1 : ¬ (jsTrim raw = "" ∨ A = "") := by push_neg; exact ⟨hempty, hAne⟩
      rw [if_neg h1, if_neg hne, if_pos (Or.inr ⟨hne, hmem⟩)]

/-- Witness for claim C4: renaming "Variable 1" to "Date" in the loaded
default state reverts with no mutation. -/
theorem renameReject_noop_witness :
    renameBlur (loadState [exRow]) 1 "Date" = ⟨loadState [exRow], "Variable 1"⟩ :=
  renameReject_noop (loadState [exRow]) 1 "Date" "Variable 1" (by decide)
    (by decide) (by decide) (by decide) (Or.inr (Or.inl (by decide)))

/-- Commit case of the rename handler: when the trimmed candidate is
nonempty, differs from the old key, and passes the guard, the handler
assigns the new name to any axis select equal to the old key (through the
select clamp against the current options), renames the key in every row,
updates the header attribute in place, and rebuilds the dropdowns with the
read-back selections preferred; a read-back value equal to the old key is
translated to the new key, which never fires because the clamped assignment
yields the new name or the empty string, neither equal to the old key. -/
theorem renameBlur_commit (s : AppState) (i : Nat) (raw : String)
    (hne : jsTrim raw ≠ "") (hok : s.headers.getD i "" ≠ "")
    (hchange : jsTrim raw ≠ s.headers.getD i "")
    (hguard : ¬ (jsTrim raw = "Date" ∨
      (jsTrim raw ≠ s.headers.getD i "" ∧ jsTrim raw ∈ getColumnHeaders s))) :
    renameBlur s i raw =
      ⟨updateDropdownSelectors
        { s with
          xAxis := if s.xAxis = s.headers.getD i "" then
            setSelectValue s.xOptions (jsTrim raw) else s.xAxis
          yAxis1 := if s.yAxis1 = s.headers.getD i "" then
            setSelectValue s.y1Options (jsTrim raw) else s.yAxis1
          yAxis2 := if s.yAxis2 = s.headers.getD i "" then
            setSelectValue s.y2Options (jsTrim raw) else s.yAxis2
          tableData := s.tableData.map (fun row =>
            match getProp row (s.headers.getD i "") with
            | some v => delProp (setProp row (jsTrim raw) v) (s.headers.getD i "")
            | none => row)
          headers := s.headers.set i (jsTrim raw) }
        (some (if s.xAxis = s.headers.getD i "" then
          setSelectValue s.xOptions (jsTrim raw) else s.xAxis))
        (some (if s.yAxis1 = s.headers.getD i "" then
          setSelectValue s.y1Options (jsTrim raw) else s.yAxis1))
        (some (if s.yAxis2 = s.headers.getD i "" then
          setSelectValue s.y2Options (jsTrim raw) else s.yAxis2)),
       raw⟩ := by
  have hclamp : ∀ opts : List String,
      setSelectValue opts (jsTrim raw) ≠ s.headers.getD i "" := by
    intro opts
    unfold setSelectValue
    split
    · exact hchange
    · exact fun h => hok h.symm
  have hne1 : (if s.xAxis = s.headers.getD i "" then
      setSelectValue s.xOptions (jsTrim raw) else s.xAxis) ≠ s.headers.getD i "" := by
    by_cases hx : s.xAxis = s.headers.getD i ""
    · rw [if_pos hx]; exact hclamp _
    · rw [if_neg hx]; exact hx
  have hne2 : (if s.yAxis1 = s.headers.getD i "" then
      setSelectValue s.y1Options (jsTrim raw) else s.yAxis1) ≠ s.headers.getD i "" := by
    by_cases hy : s.yAxis1 = s.headers.getD i ""
    · rw [if_pos hy]; exact hclamp _
    · rw [if_neg hy]; exact hy
  have hne3 : (if s.yAxis2 = s.headers.getD i "" then
      setSelectValue s.y2Options (jsTrim raw) else s.yAxis2) ≠ s.headers.getD i "" := by
    by_cases hy : s.yAxis2 = s.headers.getD i ""
    · rw [if_pos hy]; exact hclamp _
    · rw [if_neg hy]; exact hy
  simp only [renameBlur]
  rw [if_neg (by push_neg; exact ⟨hne, hok⟩), if_neg hchange, if_neg hguard,
      if_neg hne1, if_neg hne2, if_neg hne3]

/-- Claim C3 (amended): a rename of the column at header position i (old
identifier A) to a valid fresh candidate B renames the key in every Row that
had it, preserving the value exactly and all other keys' values, and updates
the header attribute in place; but an axis selection that equalled A is NOT
repointed to B: the mid-handler assignment of B runs while B is not among
that select's options (the selects mirror the registry, in which B is fresh),
so the selection is cleared and the subsequent dropdown rebuild resolves the
axis to its default — the X axis to "Date", the Y1 axis to the first
non-Date column of the updated registry, and the Y2 axis (when Y1 pointed at
a valid other column) to the first non-Date column differing from Y1. -/
theorem renameCommit_atomic (s : AppState) (i : Nat) (raw A B : String)
    (hi : i < s.headers.length)
    (hnb : ∀ c ∈ s.headers, c ≠ "")
    (hnd : s.headers.Nodup)
    (hdate : "Date" ∈ s.headers)
    (hA : s.headers.getD i "" = A) (hAnD : A ≠ "Date")
    (hB : jsTrim raw = B) (hBne : B ≠ "") (hBnD : B ≠ "Date")
    (hBnA : B ≠ A) (hBnotin : B ∉ getColumnHeaders s)
    (hxo : B ∉ s.xOptions) (hy1o : B ∉ s.y1Options) (hy2o : B ∉ s.y2Options) :
    (renameBlur s i raw).state.headers = s.headers.set i B ∧
    (∀ j, A ∈ rowKeys (s.tableData.getD j []) →
      getProp ((renameBlur s i raw).state.tableData.getD j []) A = none ∧
      getProp ((renameBlur s i raw).state.tableData.getD j []) B =
        getProp (s.tableData.getD j []) A ∧
      ∀ k, k ≠ A → k ≠ B →
        getProp ((renameBlur s i raw).state.tableData.getD j []) k =
          getProp (s.tableData.getD j []) k) ∧
    (s.xAxis = A → (renameBlur s i raw).state.xAxis = "Date") ∧
    (s.yAxis1 = A → (renameBlur s i raw).state.yAxis1 =
      ((s.headers.set i B).filter (fun c => c ≠ "Date")).headD "") ∧
    (s.yAxis2 = A → s.yAxis1 ≠ A → s.yAxis1 ∈ s.headers → s.yAxis1 ≠ "Date" →
      (renameBlur s i raw).state.yAxis2 =
        (((s.headers.set i B).filter (fun c => c ≠ "Date")).filter
          (fun c => c ≠ s.yAxis1)).headD "") := by
  have hAmem : A ∈ s.headers := hA ▸ headers_getD_mem hi
  have hAne : A ≠ "" := hnb _ hAmem
  have hshne : s.headers ≠ [] := by
    intro hcon
    rw [hcon] at hi
    simp at hi
  have hcols : getColumnHeaders s = s.headers :=
    getColumnHeaders_eq_headers hshne hnb
  have hBnotinH : B ∉ s.headers := fun h => hBnotin (by rw [hcols]; exact h)
  have hres := renameBlur_commit s i raw (by rw [hB]; exact hBne)
    (by rw [hA]; exact hAne) (by rw [hB, hA]; exact hBnA)
    (by rw [hB, hA]; push_neg; exact ⟨hBnD, fun _ => hBnotin⟩)
  rw [hA, hB] at hres
  rw [setSelectValue_not_mem hxo, setSelectValue_not_mem hy1o,
      setSelectValue_not_mem hy2o] at hres
  rw [hres]
  set s2 : AppState :=
    { s with
      xAxis := if s.xAxis = A then "" else s.xAxis
      yAxis1 := if s.yAxis1 = A then "" else s.yAxis1
      yAxis2 := if s.yAxis2 = A then "" else s.yAxis2
      tableData := s.tableData.map (fun row =>
        match getProp row A with
        | some v => delProp (setProp row B v) A
        | none => row)
      headers := s.headers.set i B } with hs2
  have hs2headers : s2.headers = s.headers.set i B := rfl
  have hs2ne : s2.headers ≠ [] := by
    rw [hs2headers]
    intro hcon
    have := List.length_set s.headers i B
    rw [hcon] at this
    simp at this
    omega
  have hsetnb : ∀ c ∈ s.headers.set i B, c ≠ "" := by
    intro c hc
    rcases List.mem_or_eq_of_mem_set hc with h | h
    · exact hnb _ h
    · rw [h]; exact hBne
  have hs2nb : ∀ c ∈ s2.headers, c ≠ "" := by
    rw [hs2headers]
    exact hsetnb
  have hcols2 : getColumnHeaders s2 = s.headers.set i B := by
    rw [getColumnHeaders_eq_headers hs2ne hs2nb, hs2headers]
  have hBset : B ∈ s.headers.set i B := by
    have hlen : i < (s.headers.set i B).length := by
      rw [List.length_set]; exact hi
    exact List.mem_iff_getElem.mpr ⟨i, hlen, List.getElem_set_self _⟩
  have hBnd : B ∈ (s.headers.set i B).filter (fun c => c ≠ "Date") :=
    List.mem_filter.mpr ⟨hBset, by simp [hBnD]⟩
  have hndnb : ∀ c ∈ (s.headers.set i B).filter (fun c => c ≠ "Date"), c ≠ "" :=
    fun c hc => hsetnb c (List.mem_of_mem_filter hc)
  refine ⟨rfl, ?_, ?_, ?_, ?_⟩
  · intro j hjA
    by_cases hj : j < s.tableData.length
    · have hmap : s2.tableData.getD j [] =
        (match getProp (s.tableData.getD j []) A with
         | some v => delProp (setProp (s.tableData.getD j []) B v) A
         | none => s.tableData.getD j []) := by
        have hjm : j < (s2.tableData).length := by
          show j < (s.tableData.map _).length
          rw [List.length_map]; exact hj
        rw [List.getD_eq_getElem s2.tableData [] hjm,
            List.getD_eq_getElem s.tableData [] hj]
        exact List.getElem_map _
      obtain ⟨v, hv⟩ := getProp_isSome_of_mem hjA
      rw [updateDropdown_tableData, hmap, hv]
      refine ⟨?_, ?_, ?_⟩
      · exact getProp_delProp_self _ _
      · exact (getProp_delProp_other (setProp (s.tableData.getD j []) B v) A
          hBnA).trans (getProp_setProp_self _ _ _)
      · intro k hkA hkB
        exact (getProp_delProp_other (setProp (s.tableData.getD j []) B v) A
          hkA).trans (getProp_setProp_other _ _ _ hkB)
    · exfalso
      rw [List.getD_eq_default] at hjA
      · simp [rowKeys] at hjA
      · omega
  · intro hx
    rw [if_pos hx, updateDropdown_x_empty, hcols2]
    refine setSelectValue_mem ?_
    exact (mem_set_iff_of_nodup hnd hi hA).mpr
      (Or.inl ⟨hdate, fun h => hAnD h.symm⟩)
  · intro hy
    rw [if_pos hy, updateDropdown_y1_empty, hcols2]
    exact setSelect_jsOrS_sublist (List.ne_nil_of_mem hBnd)
      (fun c hc => hc) hndnb _
  · intro hy2 hy1ne hy1mem hy1nD
    have hy1ne2 : s.yAxis1 ≠ "" := hnb _ hy1mem
    have hy1memf : s.yAxis1 ∈ (getColumnHeaders s2).filter (fun x => x ≠ "Date") := by
      rw [hcols2]
      refine List.mem_filter.mpr ⟨?_, by simp [hy1nD]⟩
      exact (mem_set_iff_of_nodup hnd hi hA).mpr (Or.inl ⟨hy1mem, hy1ne⟩)
    have hBneY1 : B ≠ s.yAxis1 := fun h => hBnotinH (h ▸ hy1mem)
    rw [if_pos hy2, if_neg hy1ne,
        updateDropdown_y2_empty_y1_valid s2 _ hy1ne2 hy1memf, hcols2]
    refine setSelect_jsOrS_sublist ?_ (fun c hc => List.mem_of_mem_filter hc)
      (fun c hc => hndnb c (List.mem_of_mem_filter hc)) _
    exact List.ne_nil_of_mem
      (List.mem_filter.mpr ⟨hBnd, by simp [hBneY1]⟩)

/-- Concrete state for the rename claims: the loaded example data with the X
and Y2 axes selecting "Variable 2" and the selects holding the options of
the last rebuild. -/
def c3State : AppState :=
  { headers := ["Date", "Variable 1", "Variable 2"], tableData := [exRow]
    columnCounter := 3, xAxis := "Variable 2", yAxis1 := "Variable 1"
    yAxis2 := "Variable 2"
    xOptions := ["Date", "Variable 1", "Variable 2"]
    y1Options := ["Variable 1", "Variable 2"]
    y2Options := ["Variable 1", "Variable 2"] }

/-- Witness for claim C3: renaming "Variable 2" to "Steps" while the X axis
selects "Variable 2" moves the value 2 to the key "Steps", removes the old
key, and leaves the X axis at the default "Date". -/
theorem renameCommit_atomic_witness :
    getProp ((renameBlur c3State 2 "Steps").state.tableData.getD 0 [])
        "Variable 2" = none ∧
    getProp ((renameBlur c3State 2 "Steps").state.tableData.getD 0 [])
        "Steps" = some (Value.vNum (JNum.fin 2)) ∧
    (renameBlur c3State 2 "Steps").state.xAxis = "Date" := by
  obtain ⟨hh, hrows, hx, hy1, hy2⟩ :=
    renameCommit_atomic c3State 2 "Steps" "Variable 2" "Steps"
      (by decide) (by decide) (by decide) (by decide) (by decide) (by decide)
      (by decide) (by decide) (by decide) (by decide) (by decide) (by decide)
      (by decide) (by decide)
  obtain ⟨h1, h2, h3⟩ := hrows 0 (by decide)
  exact ⟨h1, h2.trans (by decide), hx (by decide)⟩

/-- Counterexample for claim C3 as frozen: with the X axis selecting
"Variable 2", the valid fresh rename of that column to "Steps" ends with the
X axis at "Date", not "Steps" — the mid-handler assignment of the new name
runs while "Steps" is not among the X select's options, so the selection is
cleared and the rebuild falls back to the default — contradicting the
claimed repointing of every axis that selected the old identifier. -/
theorem renameCommit_axisReset_counterexample :
    c3State.xAxis = "Variable 2" ∧
    (renameBlur c3State 2 "Steps").state.headers =
      ["Date", "Variable 1", "Steps"] ∧
    (renameBlur c3State 2 "Steps").state.xAxis = "Date" ∧
    ("Date" : String) ≠ "Steps" := by
  decide

/-! ## Claims C5 and C6: rollback and revert on the cell-edit path -/

theorem list_set_getElem_self (l : List Row) (n : Nat) (h : n < l.length) :
    l.set n l[n] = l := by
  apply List.ext_getElem
  · rw [List.length_set]
  · intro i h1 h2
    rw [List.getElem_set]
    split
    · next heq => subst heq; rfl
    · rfl

/-- Claim C5 (amended): when an accepted cell edit's replace_data call
fails, the cell display and the edited row are restored from the render-time
closure snapshot row; when that row is still equal to the snapshot (no
intervening accepted edit since the last render), the Row Store ends exactly
as before the edit, as if the edit never happened. -/
theorem cellEdit_rollback (tableData : List Row) (renderRow : Row)
    (columnName raw : String) (attr : Option String) (m : Int)
    (hm : parseIntJS (attrString attr) = some m) (h0 : 0 ≤ m)
    (hlen : m < (tableData.length : Int))
    (hkey : columnName ∈ rowKeys renderRow)
    (haccept : (columnName = "Date" ∧ datePattern (jsTrim raw) = true) ∨
               (columnName ≠ "Date" ∧ parseFloat (jsTrim raw) ≠ JNum.nan)) :
    ∃ v, getProp renderRow columnName = some v ∧
      cellBlur tableData renderRow columnName raw attr false =
        some ⟨tableData.set m.toNat renderRow, valueToString v, true⟩ ∧
      (tableData.getD m.toNat [] = renderRow →
        tableData.set m.toNat renderRow = tableData) := by
  obtain ⟨v, hv⟩ := getProp_isSome_of_mem hkey
  refine ⟨v, hv, ?_, ?_⟩
  · rw [cellBlur_valid_index renderRow columnName raw false hm h0 hlen]
    unfold cellBlurBody
    rcases haccept with ⟨hdate, hpat⟩ | ⟨hnd, hnum⟩
    · rw [if_pos hdate, if_pos hpat]
      simp [cellCommit, hv, h0, List.set_set]
    · rw [if_neg hnd]
      cases hf : parseFloat (jsTrim raw) with
      | nan => exact absurd hf hnum
      | inf => simp [cellCommit, hv, h0, List.set_set]
      | negInf => simp [cellCommit, hv, h0, List.set_set]
      | fin q => simp [cellCommit, hv, h0, List.set_set]
  · intro hsnap
    have hmn : m.toNat < tableData.length := by omega
    rw [List.getD_eq_getElem tableData [] hmn] at hsnap
    rw [← hsnap]
    exact list_set_getElem_self tableData m.toNat hmn

/-- Witness for claim C5: a failed backend call after an accepted edit of
the only row since the render restores the Row Store exactly. -/
theorem cellEdit_rollback_witness :
    ∃ v, getProp exRow "Variable 1" = some v ∧
      cellBlur [exRow] exRow "Variable 1" "9" (some "0") false =
        some ⟨[exRow].set 0 exRow, valueToString v, true⟩ := by
  obtain ⟨v, hv, heq, _⟩ :=
    cellEdit_rollback [exRow] exRow "Variable 1" "9" (some "0") 0 (by decide)
      (by decide) (by decide) (by decide) (Or.inr ⟨by decide, by decide⟩)
  exact ⟨v, hv, heq⟩

/-- Counterexample for claim C5 as frozen: after an accepted and
backend-confirmed edit of Variable 1 from 5 to 7 (with no re-render), a
second accepted edit of the same cell whose replace_data call fails rolls
the row back to the render-time snapshot value 5 and redisplays "5", not the
pre-edit value 7, so the Row Store is not as if the second edit never
happened. -/
theorem cellEdit_rollback_counterexample :
    cellBlur [exRow] exRow "Variable 1" "7" (some "0") true =
      some ⟨[setProp exRow "Variable 1" (Value.vNum (JNum.fin 7))], "7", true⟩ ∧
    cellBlur [setProp exRow "Variable 1" (Value.vNum (JNum.fin 7))] exRow
        "Variable 1" "9" (some "0") false =
      some ⟨[exRow], "5", true⟩ ∧
    getProp (([setProp exRow "Variable 1" (Value.vNum (JNum.fin 7))]).getD 0 [])
        "Variable 1" = some (Value.vNum (JNum.fin 7)) ∧
    getProp ([exRow].getD 0 []) "Variable 1" = some (Value.vNum (JNum.fin 5)) ∧
    Value.vNum (JNum.fin 5) ≠ Value.vNum (JNum.fin 7) := by
  decide

/-- Claim C6 (amended): a rejected cell-edit commit reverts the cell's
displayed text to the render-time snapshot value of that cell (which is the
last known-good value only when no accepted edit intervened since the last
re-render) and leaves the Row Store unchanged, with no backend call. -/
theorem cellEdit_reject_revert (tableData : List Row) (renderRow : Row)
    (columnName raw : String) (attr : Option String) (ok : Bool) (m : Int)
    (hm : parseIntJS (attrString attr) = some m) (h0 : 0 ≤ m)
    (hlen : m < (tableData.length : Int))
    (hkey : columnName ∈ rowKeys renderRow)
    (hreject : (columnName = "Date" ∧ datePattern (jsTrim raw) = false) ∨
               (columnName ≠ "Date" ∧ parseFloat (jsTrim raw) = JNum.nan)) :
    ∃ v, getProp renderRow columnName = some v ∧
      cellBlur tableData renderRow columnName raw attr ok =
        some ⟨tableData, valueToString v, false⟩ := by
  obtain ⟨v, hv⟩ := getProp_isSome_of_mem hkey
  refine ⟨v, hv, ?_⟩
  rw [cellBlur_valid_index renderRow columnName raw ok hm h0 hlen]
  unfold cellBlurBody
  rcases hreject with ⟨hdate, hpat⟩ | ⟨hnd, hnum⟩
  · rw [if_pos hdate, if_neg (by rw [hpat]; exact Bool.false_ne_true)]
    unfold cellRevert
    rw [hv]
    rfl
  · rw [if_neg hnd, hnum]
    unfold cellRevert
    rw [hv]
    rfl

/-- Witness for claim C6: committing "abc" to a numeric cell reverts the
display to the snapshot text and does not touch the Row Store. -/
theorem cellEdit_reject_revert_witness :
    ∃ v, getProp exRow "Variable 1" = some v ∧
      cellBlur [exRow] exRow "Variable 1" "abc" (some "0") true =
        some ⟨[exRow], valueToString v, false⟩ :=
  cellEdit_reject_revert [exRow] exRow "Variable 1" "abc" (some "0") true 0
    (by decide) (by decide) (by decide) (by decide)
    (Or.inr ⟨by decide, by decide⟩)

/-- Counterexample for claim C6 as frozen: after an accepted edit of
Variable 1 from 5 to 7 since the last re-render (the backend confirmed it,
so 7 is the last known-good value), a rejected commit of "abc" to the same
cell reverts the display to the render-time "5", not to "7". -/
theorem cellEdit_reject_stale_counterexample :
    cellBlur [exRow] exRow "Variable 1" "7" (some "0") true =
      some ⟨[setProp exRow "Variable 1" (Value.vNum (JNum.fin 7))], "7", true⟩ ∧
    cellBlur [setProp exRow "Variable 1" (Value.vNum (JNum.fin 7))] exRow
        "Variable 1" "abc" (some "0") true =
      some ⟨[setProp exRow "Variable 1" (Value.vNum (JNum.fin 7))], "5", false⟩ ∧
    getProp (([setProp exRow "Variable 1" (Value.vNum (JNum.fin 7))]).getD 0 [])
        "Variable 1" = some (Value.vNum (JNum.fin 7)) ∧
    jnumToString (JNum.fin 7) = "7" ∧ ("5" : String) ≠ "7" := by
  decide

/-! ## Claims C7 and C8: addRow defaults -/

/-- One addRow step folds the non-Date registry columns over the fresh row
that starts with the Date property. -/
theorem addRow_tableData (s : AppState) (dv : String) (cv : String → String)
    (d tz : Int) :
    (addRow s dv cv d tz).tableData = s.tableData ++
      [(getColumnHeaders s).foldl
        (fun r key => if key ≠ "Date" then setProp r key (addRowValue (cv key)) else r)
        [("Date", Value.vStr (if dv = "" then getTodayLocal d tz else dv))]] := rfl

theorem getProp_foldl_setProp_date (cols : List String) (f : String → Value)
    (r0 : Row) :
    getProp (cols.foldl
      (fun r key => if key ≠ "Date" then setProp r key (f key) else r) r0) "Date" =
      getProp r0 "Date" := by
  induction cols generalizing r0 with
  | nil => rfl
  | cons c t ih =>
    rw [List.foldl_cons]
    by_cases hc : c = "Date"
    · rw [if_neg (by simp [hc]), ih]
    · rw [if_pos hc, ih, getProp_setProp_other _ _ _ (Ne.symm hc)]

theorem getProp_foldl_setProp_not_mem (cols : List String) (f : String → Value)
    (r0 : Row) (k : String) (hk : k ∉ cols) :
    getProp (cols.foldl
      (fun r key => if key ≠ "Date" then setProp r key (f key) else r) r0) k =
      getProp r0 k := by
  induction cols generalizing r0 with
  | nil => rfl
  | cons c t ih =>
    rw [List.foldl_cons]
    have hk2 : k ∉ t := fun h => hk (List.mem_cons_of_mem _ h)
    have hkc : k ≠ c := fun h => hk (h ▸ List.mem_cons_self _ _)
    by_cases hc : c = "Date"
    · rw [if_neg (by simp [hc]), ih _ hk2]
    · rw [if_pos hc, ih _ hk2, getProp_setProp_other _ _ _ hkc]

theorem getProp_foldl_setProp_key (cols : List String) (f : String → Value)
    (r0 : Row) (k : String) (hk : k ∈ cols) (hkD : k ≠ "Date")
    (hnd : cols.Nodup) :
    getProp (cols.foldl
      (fun r key => if key ≠ "Date" then setProp r key (f key) else r) r0) k =
      some (f k) := by
  induction cols generalizing r0 with
  | nil => exact absurd hk (List.not_mem_nil k)
  | cons c t ih =>
    rw [List.foldl_cons]
    rcases List.mem_cons.mp hk with hkc | hkt
    · subst hkc

      rw [if_pos hkD, getProp_foldl_setProp_not_mem t f _ k
        (by exact (List.nodup_cons.mp hnd).1), getProp_setProp_self]
    · have hnt := (List.nodup_cons.mp hnd).2
      by_cases hc : c = "Date"
      · rw [if_neg (by simp [hc]), ih _ hkt hnt]
      · rw [if_pos hc, ih _ hkt hnt]

/-- Claim C7 (amended): for an addRow with empty Date input the stored Date
string is getTodayLocal, which is the device's local calendar date exactly
when the device timezone is at or west of UTC (offset at most zero); for a
device east of UTC it is the previous calendar day, because the code
formats the local midnight instant with the UTC-based toISOString. -/
theorem addRow_defaultDate (s : AppState) (cv : String → String) (d tz : Int)
    (hlo : -1440 < tz) (hhi : tz < 1440) :
    ((addRow s "" cv d tz).tableData.getLast?).map (fun r => getProp r "Date") =
      some (some (Value.vStr (getTodayLocal d tz))) ∧
    (tz ≤ 0 → getTodayLocal d tz = dayToISO d) ∧
    (0 < tz → getTodayLocal d tz = dayToISO (d - 1)) := by
  refine ⟨?_, ?_, ?_⟩
  · rw [addRow_tableData, List.getLast?_concat]
    simp only [Option.map_some']
    rw [getProp_foldl_setProp_date]
    rfl
  · intro h
    unfold getTodayLocal
    congr 1
    omega
  · intro h
    unfold getTodayLocal
    congr 1
    omega

/-- Witness for claim C7: a device five hours west of UTC on local
2024-05-10 stores "2024-05-10". -/
theorem addRow_defaultDate_witness :
    ((addRow (loadState [exRow]) "" (fun _ => "") (civilToDays 2024 5 10)
        (-300)).tableData.getLast?).map (fun r => getProp r "Date") =
      some (some (Value.vStr "2024-05-10")) := by
  obtain ⟨h1, h2, h3⟩ := addRow_defaultDate (loadState [exRow]) (fun _ => "")
    (civilToDays 2024 5 10) (-300) (by decide) (by decide)
  refine h1.trans ?_
  rw [h2 (by decide)]
  decide

/-- Counterexample for claim C7 as frozen: a device nine hours east of UTC
(tz offset 540 minutes) whose local calendar date is 2024-05-10 stores
"2024-05-09", not the local calendar date. -/
theorem addRow_eastTz_counterexample :
    ((addRow (loadState [exRow]) "" (fun _ => "") (civilToDays 2024 5 10)
        540).tableData.getLast?).map (fun r => getProp r "Date") =
      some (some (Value.vStr "2024-05-09")) ∧
    dayToISO (civilToDays 2024 5 10) = "2024-05-10" ∧
    ("2024-05-09" : String) ≠ "2024-05-10" := by
  decide

/-- Claim C8 (amended): for every non-Date registry column, the appended
row's value is parseFloat of that column's input text when the text is
non-empty and not whitespace-only, and the number 0 when it is empty or
whitespace; parseFloat of a non-numeric text is NaN, so such a text stores
NaN rather than 0 (the number inputs of the page yield an empty string for
non-numeric entry, but the handler itself does not coerce NaN to 0). -/
theorem addRow_columnValues (s : AppState) (dv : String) (cv : String → String)
    (d tz : Int) (k : String) (hk : k ∈ getColumnHeaders s) (hkD : k ≠ "Date")
    (hnd : (getColumnHeaders s).Nodup) :
    ((addRow s dv cv d tz).tableData.getLast?).map (fun r => getProp r k) =
      some (some (addRowValue (cv k))) ∧
    (∀ t : String, jsTrim t = "" → addRowValue t = Value.vNum (JNum.fin 0)) ∧
    (∀ t : String, t ≠ "" → jsTrim t ≠ "" →
      addRowValue t = Value.vNum (parseFloat t)) ∧
    addRowValue "abc" = Value.vNum JNum.nan := by
  refine ⟨?_, ?_, ?_, by decide⟩
  · rw [addRow_tableData, List.getLast?_concat]
    simp only [Option.map_some']
    rw [getProp_foldl_setProp_key _ _ _ _ hk hkD hnd]
  · intro t ht
    unfold addRowValue
    rw [if_neg (by push_neg; intro _; exact ht)]
  · intro t h1 h2
    unfold addRowValue
    rw [if_pos ⟨h1, h2⟩]

/-- Witness for claim C8: input text "3.5" for Variable 1 stores the number
3.5, and an empty Variable 2 input stores 0. -/
theorem addRow_columnValues_witness :
    ((addRow (loadState [exRow]) "2024-06-01"
        (fun k => if k = "Variable 1" then "3.5" else "") 0 0).tableData.getLast?).map
      (fun r => getProp r "Variable 1") =
      some (some (Value.vNum (JNum.fin (mkRat 7 2)))) := by
  obtain ⟨h1, h2, h3, h4⟩ := addRow_columnValues (loadState [exRow]) "2024-06-01"
    (fun k => if k = "Variable 1" then "3.5" else "") 0 0 "Variable 1"
    (by decide) (by decide) (by decide)
  refine h1.trans ?_
  decide

/-- Counterexample for claim C8 as frozen: the non-empty unparseable input
text "abc" stores NaN for its column, not 0, so a Row can gain a NaN value
through addRow. -/
theorem addRow_unparseable_counterexample :
    ((addRow (loadState [exRow]) "2024-06-01"
        (fun k => if k = "Variable 1" then "abc" else "") 0 0).tableData.getLast?).map
      (fun r => getProp r "Variable 1") =
      some (some (Value.vNum JNum.nan)) ∧
    Value.vNum JNum.nan ≠ Value.vNum (JNum.fin 0) := by
  decide

/-! ## Claim C9: sort-for-plot -/

theorem qSub_eq_sub (a b : ℚ) : qSub a b = a - b := by
  unfold qSub
  have ha : ((a.den : ℚ)) ≠ 0 := by
    exact_mod_cast a.den_nz
  have hb : ((b.den : ℚ)) ≠ 0 := by
    exact_mod_cast b.den_nz
  rw [Rat.mkRat_eq_div]
  conv_rhs => rw [← Rat.num_div_den a, ← Rat.num_div_den b]
  rw [div_sub_div _ _ ha hb]
  push_cast
  ring_nf

/-- Proof-side projection of a finite JS number to its rational value. -/
def finOrZero : JNum → ℚ
  | JNum.fin q => q
  | _ => 0

theorem sortLeBy_fin {key : Row → JNum} {a b : Row} {qa qb : ℚ}
    (ha : key a = JNum.fin qa) (hb : key b = JNum.fin qb) :
    sortLeBy key a b = decide (qa ≤ qb) := by
  unfold sortLeBy jnumSub jnumIsPos
  rw [ha, hb]
  simp only [qSub_eq_sub]
  by_cases h : qa ≤ qb
  · rw [decide_eq_true h, decide_eq_false (by simpa using h), Bool.not_false]
  · rw [decide_eq_false h, decide_eq_true (by simp at h; simpa [sub_pos] using h),
        Bool.not_true]

theorem jsOrderedInsert_perm {α : Type} (le : α → α → Bool) (a : α)
    (l : List α) : (jsOrderedInsert le a l).Perm (a :: l) := by
  induction l with
  | nil => exact List.Perm.refl _
  | cons b t ih =>
    unfold jsOrderedInsert
    by_cases h : le a b
    · rw [if_pos h]
    · rw [if_neg h]
      exact (List.Perm.cons b ih).trans (List.Perm.swap a b t)

theorem jsSortImpl_perm {α : Type} (le : α → α → Bool) (l : List α) :
    (jsSortImpl le l).Perm l := by
  induction l with
  | nil => exact List.Perm.refl _
  | cons a t ih =>
    unfold jsSortImpl
    exact (jsOrderedInsert_perm le a (jsSortImpl le t)).trans (List.Perm.cons a ih)

theorem mem_jsOrderedInsert {α : Type} {le : α → α → Bool} {a x : α}
    {l : List α} (h : x ∈ jsOrderedInsert le a l) : x = a ∨ x ∈ l := by
  have := (jsOrderedInsert_perm le a l).mem_iff.mp h
  simpa using this

theorem jsOrderedInsert_sorted {α : Type} (le : α → α → Bool) (key : α → ℚ)
    (a : α) (l : List α)
    (hfa : ∀ x ∈ a :: l, ∀ y ∈ a :: l, le x y = decide (key x ≤ key y))
    (hs : l.Pairwise (fun x y => key x ≤ key y)) :
    (jsOrderedInsert le a l).Pairwise (fun x y => key x ≤ key y) := by
  induction l with
  | nil => exact List.pairwise_singleton _ a
  | cons b t ih =>
    unfold jsOrderedInsert
    by_cases h : le a b
    · rw [if_pos h]
      have hab : key a ≤ key b := by
        have := hfa a (by simp) b (by simp)
        rw [h] at this
        exact of_decide_eq_true this.symm
      refine List.Pairwise.cons ?_ hs
      intro y hy
      rcases List.mem_cons.mp hy with rfl | hyt
      · exact hab
      · exact le_trans hab (List.rel_of_pairwise_cons hs hyt)
    · rw [if_neg h]
      have hba : key b ≤ key a := by
        have hab := hfa a (by simp) b (by simp)
        rw [hab] at h
        exact le_of_not_le (by simpa using h)
      refine List.Pairwise.cons ?_ ?_
      · intro y hy
        rcases mem_jsOrderedInsert hy with rfl | hyt
        · exact hba
        · exact List.rel_of_pairwise_cons hs hyt
      · refine ih ?_ (List.Pairwise.sublist (List.sublist_cons_self b t) hs)
        intro x hx y hy
        have hx2 : x ∈ a :: b :: t := by
          rcases List.mem_cons.mp hx with rfl | hxt
          · simp
          · simp [hxt]
        have hy2 : y ∈ a :: b :: t := by
          rcases List.mem_cons.mp hy with rfl | hyt
          · simp
          · simp [hyt]
        exact hfa x hx2 y hy2

theorem jsSortImpl_sorted {α : Type} (le : α → α → Bool) (key : α → ℚ)
    (l : List α)
    (hfa : ∀ x ∈ l, ∀ y ∈ l, le x y = decide (key x ≤ key y)) :
    (jsSortImpl le l).Pairwise (fun x y => key x ≤ key y) := by
  induction l with
  | nil => exact List.Pairwise.nil
  | cons a t ih =>
    unfold jsSortImpl
    have hmem : ∀ x ∈ a :: jsSortImpl le t, x ∈ a :: t := by
      intro x hx
      rcases List.mem_cons.mp hx with rfl | hxt
      · simp
      · exact List.mem_cons_of_mem _ ((jsSortImpl_perm le t).mem_iff.mp hxt)
    refine jsOrderedInsert_sorted le key a (jsSortImpl le t) ?_ ?_
    · intro x hx y hy
      exact hfa x (hmem x hx) y (hmem y hy)
    · refine ih ?_
      intro x hx y hy
      exact hfa x (List.mem_cons_of_mem _ hx) y (List.mem_cons_of_mem _ hy)

/-- Concrete dataset of the claim: three rows with dates 2024-03-01,
2024-01-01 and 2024-02-01, X axis Date. -/
def c9Rows : List Row :=
  [[("Date", Value.vStr "2024-03-01"), ("Variable 1", Value.vNum (JNum.fin 1)),
    ("Variable 2", Value.vNum (JNum.fin 4))],
   [("Date", Value.vStr "2024-01-01"), ("Variable 1", Value.vNum (JNum.fin 2)),
    ("Variable 2", Value.vNum (JNum.fin 5))],
   [("Date", Value.vStr "2024-02-01"), ("Variable 1", Value.vNum (JNum.fin 3)),
    ("Variable 2", Value.vNum (JNum.fin 6))]]

def c9State : AppState :=
  { headers := ["Date", "Variable 1", "Variable 2"], tableData := c9Rows
    columnCounter := 3, xAxis := "Date", yAxis1 := "Variable 1"
    yAxis2 := "Variable 2"
    xOptions := ["Date", "Variable 1", "Variable 2"]
    y1Options := ["Variable 1", "Variable 2"]
    y2Options := ["Variable 1", "Variable 2"] }

/-- Claim C9: for every state whose rows carry a well-defined X key (a
parseable date when X is Date, a number otherwise), updatePlot leaves the
state unchanged, the rows it plots are a permutation of the dataset that is
sorted ascending by the X key, and the x series is the projection of those
sorted rows; in particular, on the concrete dataset with dates
[2024-03-01, 2024-01-01, 2024-02-01] and X = Date, the plotted x sequence is
[2024-01-01, 2024-02-01, 2024-03-01]. -/
theorem updatePlot_sortsByX :
    (∀ s : AppState,
      (∀ r ∈ s.tableData, ∃ q, xKey s.xAxis r = JNum.fin q) →
      (updatePlot s).1 = s ∧
      (plotSortedData s).Perm s.tableData ∧
      (plotSortedData s).Pairwise
        (fun a b => finOrZero (xKey s.xAxis a) ≤ finOrZero (xKey s.xAxis b)) ∧
      (updatePlot s).2.xSeries = (plotSortedData s).map (fun d => getProp d s.xAxis)) ∧
    (updatePlot c9State).2.xSeries =
      [some (Value.vStr "2024-01-01"), some (Value.vStr "2024-02-01"),
       some (Value.vStr "2024-03-01")] := by
  constructor
  · intro s hvalid
    refine ⟨rfl, jsSortImpl_perm _ _, ?_, rfl⟩
    refine jsSortImpl_sorted _ _ _ ?_
    intro x hx y hy
    obtain ⟨qx, hqx⟩ := hvalid x hx
    obtain ⟨qy, hqy⟩ := hvalid y hy
    rw [sortLeBy_fin hqx hqy]
    unfold finOrZero
    rw [hqx, hqy]
  · decide

/-- Witness for claim C9: the general part applied to the concrete dataset. -/
theorem updatePlot_sortsByX_witness :
    (updatePlot c9State).1 = c9State ∧
    (plotSortedData c9State).Perm c9State.tableData := by
  have hv : ∀ r ∈ c9State.tableData, ∃ q, xKey c9State.xAxis r = JNum.fin q := by
    intro r hr
    have hr2 : r ∈ c9Rows := hr
    fin_cases hr2 <;> exact ⟨_, rfl⟩
  obtain ⟨h1, h2, h3, h4⟩ := updatePlot_sortsByX.1 c9State hv
  exact ⟨h1, h2⟩

/-! ## Claim C10: row-index guard of the cell-edit handler -/

theorem isWhitespace_eq_false_of_isDigit {c : Char} (h : c.isDigit = true) :
    c.isWhitespace = false := by
  by_contra hw
  have hw2 : c.isWhitespace = true := by
    cases hcw : c.isWhitespace
    · exact absurd hcw hw
    · rfl
  unfold Char.isWhitespace at hw2
  simp only [Bool.or_eq_true, decide_eq_true_eq] at hw2
  rcases hw2 with ((h1 | h1) | h1) | h1 <;> (subst h1; exact absurd h (by decide))

theorem takeWhile_isDigit_all {l : List Char} (h : l.all Char.isDigit = true) :
    l.takeWhile Char.isDigit = l := by
  induction l with
  | nil => rfl
  | cons c t ih =>
    rw [List.all_cons, Bool.and_eq_true] at h
    rw [List.takeWhile_cons, if_pos h.1, ih h.2]

theorem dropWhile_isWhitespace_of_digits {l : List Char}
    (h : l.all Char.isDigit = true) : l.dropWhile Char.isWhitespace = l := by
  cases l with
  | nil => rfl
  | cons c t =>
    rw [List.all_cons, Bool.and_eq_true] at h
    rw [List.dropWhile_cons,
        if_neg (by rw [isWhitespace_eq_false_of_isDigit h.1]; exact Bool.false_ne_true)]

/-- parseInt on the decimal digit strings renderTableRows writes into the
data-row-index attribute yields the nonnegative value of the digits. -/
theorem parseIntJS_digits (s : String) (hne : s.data ≠ [])
    (hd : s.data.all Char.isDigit = true) :
    parseIntJS s = some ((digitsToNat s.data : Nat) : Int) := by
  unfold parseIntJS
  rw [dropWhile_isWhitespace_of_digits hd]
  cases hsd : s.data with
  | nil => exact absurd hsd hne
  | cons c t =>
    rw [hsd] at hd
    rw [List.all_cons, Bool.and_eq_true] at hd
    have hcminus : c ≠ '-' := by
      intro hc
      rw [hc] at hd
      exact absurd hd.1 (by decide)
    have hcplus : c ≠ '+' := by
      intro hc
      rw [hc] at hd
      exact absurd hd.1 (by decide)
    split
    · next t2 heq =>
      exact absurd (List.cons.inj heq.symm).1.symm hcminus
    · next t2 heq =>
      exact absurd (List.cons.inj heq.symm).1.symm hcplus
    · next l2 h1 h2 =>
      have hall : (c :: t).all Char.isDigit = true := by
        rw [List.all_cons, Bool.and_eq_true]
        exact hd
      rw [takeWhile_isDigit_all hall]
      rw [if_neg (by simp)]

theorem cellCommit_tableData_cases (td : List Row) (rr : Row) (col : String)
    (m : Int) (sv : Value) (ad : String) (ok : Bool) (res : BlurResult)
    (hres : cellCommit td rr col (some m) sv ad ok = some res) :
    res.tableData = td ∨ ∃ r, res.tableData = td.set m.toNat r := by
  unfold cellCommit at hres
  by_cases h0 : (0 : Int) ≤ m
  · cases ok with
    | true =>
      simp only [if_pos h0, if_true] at hres
      have := Option.some.inj hres
      right
      exact ⟨_, by rw [← this]⟩
    | false =>
      cases hgp : getProp rr col with
      | none => rw [hgp] at hres; simp at hres
      | some v =>
        rw [hgp] at hres
        simp only [if_pos h0, Option.map_some', if_false, List.set_set] at hres
        have := Option.some.inj hres
        right
        exact ⟨_, by rw [← this]⟩
  · cases ok with
    | true =>
      simp only [if_neg h0, if_true] at hres
      have := Option.some.inj hres
      left
      rw [← this]
    | false =>
      cases hgp : getProp rr col with
      | none => rw [hgp] at hres; simp at hres
      | some v =>
        rw [hgp] at hres
        simp only [if_neg h0, Option.map_some', if_false] at hres
        have := Option.some.inj hres
        left
        rw [← this]

/-- Claim C10: for a blur commit whose data-row-index attribute is either
absent or one of the decimal digit strings the renderer writes, a row index
that is missing (parsed as -1), negative, or at or beyond the Row Store
length makes the handler revert the cell text to the snapshot value and
return with the Row Store untouched and no backend call; and on every path
the handler either leaves the Row Store unchanged or overwrites a single row
at an index below the current length, so no out-of-bounds row write can
occur. -/
theorem cellEdit_indexGuard (tableData : List Row) (renderRow : Row)
    (columnName raw : String) (attr : Option String) (ok : Bool)
    (hattr : attr = none ∨
      ∃ ds : String, attr = some ds ∧ ds.data ≠ [] ∧ ds.data.all Char.isDigit = true)
    (hkey : columnName ∈ rowKeys renderRow) :
    (∀ m : Int, parseIntJS (attrString attr) = some m →
      (m < 0 ∨ (tableData.length : Int) ≤ m) →
      ∃ v, getProp renderRow columnName = some v ∧
        cellBlur tableData renderRow columnName raw attr ok =
          some ⟨tableData, valueToString v, false⟩) ∧
    (∀ res, cellBlur tableData renderRow columnName raw attr ok = some res →
      res.tableData = tableData ∨
      ∃ j r, j < tableData.length ∧ res.tableData = tableData.set j r) := by
  obtain ⟨v, hv⟩ := getProp_isSome_of_mem hkey
  have hparse : parseIntJS (attrString attr) = some (-1) ∨
      ∃ n : Nat, parseIntJS (attrString attr) = some (n : Int) := by
    rcases hattr with rfl | ⟨ds, rfl, hne, hd⟩
    · left; rfl
    · right
      have hds : ds ≠ "" := by
        intro hcon
        rw [hcon] at hne
        exact hne rfl
      refine ⟨digitsToNat ds.data, ?_⟩
      have hstr : attrString (some ds) = ds := by
        show (if ds = "" then "-1" else ds) = ds
        rw [if_neg hds]
      rw [hstr]
      exact parseIntJS_digits ds hne hd
  constructor
  · intro m hm hbad
    have hm1 : m = -1 ∨ 0 ≤ m := by
      rcases hparse with h | ⟨n, h⟩
      · rw [hm] at h; left; exact (Option.some.inj h).symm ▸ rfl
      · rw [hm] at h
        right
        have := Option.some.inj h
        omega
    have hinv : rowIndexInvalid tableData (some m) = true := by
      unfold rowIndexInvalid
      rcases hm1 with rfl | h0
      · simp
      · have hlen : (tableData.length : Int) ≤ m := by omega
        simp [hlen]
    refine ⟨v, hv, ?_⟩
    simp only [cellBlur, hm, hinv, if_true]
    unfold cellRevert
    rw [hv]
    rfl
  · intro res hres
    simp only [cellBlur] at hres
    rcases hparse with hp | ⟨n, hp⟩ <;> rw [hp] at hres
    · rw [show rowIndexInvalid tableData (some (-1)) = true by simp [rowIndexInvalid]]
        at hres
      unfold cellRevert at hres
      rw [hv] at hres
      left
      rw [← (Option.some.inj hres)]
    · by_cases hbig : (tableData.length : Int) ≤ (n : Int)
      · rw [show rowIndexInvalid tableData (some (n : Int)) = true by
          simp [rowIndexInvalid]; omega] at hres
        unfold cellRevert at hres
        rw [hv] at hres
        left
        rw [← (Option.some.inj hres)]
      · rw [show rowIndexInvalid tableData (some (n : Int)) = false by
          simp [rowIndexInvalid]; omega] at hres
        have hn : n < tableData.length := by omega
        have hcases : res.tableData = tableData ∨
            ∃ r, res.tableData = tableData.set ((n : Int)).toNat r := by
          unfold cellBlurBody at hres
          by_cases hcol : columnName = "Date"
          · rw [if_pos hcol] at hres
            by_cases hpat : datePattern (jsTrim raw) = true
            · rw [if_pos hpat] at hres
              exact cellCommit_tableData_cases _ _ _ _ _ _ _ _ hres
            · rw [if_neg hpat] at hres
              unfold cellRevert at hres
              rw [hv] at hres
              left
              rw [← (Option.some.inj hres)]
          · rw [if_neg hcol] at hres
            cases hpf : parseFloat (jsTrim raw) with
            | nan =>
              rw [hpf] at hres
              unfold cellRevert at hres
              rw [hv] at hres
              left
              rw [← (Option.some.inj hres)]
            | inf =>
              rw [hpf] at hres
              exact cellCommit_tableData_cases _ _ _ _ _ _ _ _ hres
            | negInf =>
              rw [hpf] at hres
              exact cellCommit_tableData_cases _ _ _ _ _ _ _ _ hres
            | fin q =>
              rw [hpf] at hres
              exact cellCommit_tableData_cases _ _ _ _ _ _ _ _ hres
        rcases hcases with h | ⟨r, hr⟩
        · left; exact h
        · right
          exact ⟨((n : Int)).toNat, r, by simpa using hn, hr⟩

/-- Witness for claim C10: a stale attribute index 5 with a single-row store
reverts with no backend call. -/
theorem cellEdit_indexGuard_witness :
    ∃ v, getProp exRow "Variable 1" = some v ∧
      cellBlur [exRow] exRow "Variable 1" "9" (some "5") true =
        some ⟨[exRow], valueToString v, false⟩ := by
  obtain ⟨h1, h2⟩ := cellEdit_indexGuard [exRow] exRow "Variable 1" "9"
    (some "5") true (Or.inr ⟨"5", rfl, by decide, by decide⟩) (by decide)
  exact h1 5 (by decide) (by decide)

/-! ## Claim C1: column identity invariant -/

/-- Well-formed server data for the load path: every row has
duplicate-free, nonempty keys with the same key set as the first row, and
the Date key is present (the backend Row contract). -/
def WellFormedData (data : List Row) : Prop :=
  match data with
  | [] => True
  | r0 :: _ =>
    "Date" ∈ rowKeys r0 ∧
    ∀ r ∈ data, (rowKeys r).Nodup ∧ "" ∉ rowKeys r ∧
      (∀ k ∈ rowKeys r, k ∈ rowKeys r0) ∧ (∀ k ∈ rowKeys r0, k ∈ rowKeys r)

theorem variable_name_ne_empty (n : Nat) : ("Variable " ++ toString n) ≠ "" := by
  intro h
  have := congrArg String.data h
  rw [String.data_append] at this
  simp at this

theorem nodup_set_of_not_mem {l : List String} {b : String} (hnd : l.Nodup)
    (hb : b ∉ l) : ∀ i : Nat, (l.set i b).Nodup := by
  induction l with
  | nil => intro i; exact List.nodup_nil
  | cons a t ih =>
    intro i
    cases i with
    | zero =>
      rw [List.set_cons_zero]
      exact List.nodup_cons.mpr
        ⟨fun h => hb (List.mem_cons_of_mem _ h), (List.nodup_cons.mp hnd).2⟩
    | succ j =>
      rw [List.set_cons_succ]
      refine List.nodup_cons.mpr ⟨?_, ih (List.nodup_cons.mp hnd).2
        (fun h => hb (List.mem_cons_of_mem _ h)) j⟩
      intro hmem
      rcases List.mem_or_eq_of_mem_set hmem with h | h
      · exact (List.nodup_cons.mp hnd).1 h
      · exact hb (h ▸ List.mem_cons_self a t)

theorem head?_set_of_ne_zero {l : List String} {b : String} {i : Nat}
    (hi : i ≠ 0) : (l.set i b).head? = l.head? := by
  cases l with
  | nil => rfl
  | cons a t =>
    cases i with
    | zero => exact absurd rfl hi
    | succ j => rw [List.set_cons_succ]; rfl

theorem any_key_eq_false_of_not_mem {r : Row} {k : String}
    (h : k ∉ rowKeys r) : r.any (fun p => p.1 = k) = false := by
  rw [List.any_eq_false]
  intro p hp
  simp only [decide_eq_true_eq]
  intro hpk
  exact h (List.mem_map.mpr ⟨p, hp, hpk⟩)

theorem inv_updateDropdown {s : AppState} (h : Inv s) (a b c : Option String) :
    Inv (updateDropdownSelectors s a b c) :=
  ⟨h.nonempty, h.noBlank, h.nodup, h.dateFirst, h.rows⟩

theorem addFresh_not_mem {s : AppState} (hfresh : addFresh s = true) :
    ("Variable " ++ toString s.columnCounter) ∉ s.headers := by
  unfold addFresh at hfresh
  simpa using hfresh

/-- addColumn preserves the invariant when the synthesized identifier is
fresh. -/
theorem inv_addColumn {s : AppState} (hInv : Inv s) (hfresh : addFresh s = true) :
    Inv (addColumn s) := by
  have hnotmem := addFresh_not_mem hfresh
  unfold addColumn
  apply inv_updateDropdown
  set key := "Variable " ++ toString s.columnCounter with hkey
  obtain ⟨h0, t0, hht⟩ := List.exists_cons_of_ne_nil hInv.nonempty
  constructor
  · show s.headers ++ [key] ≠ []
    simp
  · show ∀ c ∈ s.headers ++ [key], c ≠ ""
    intro c hc
    rcases List.mem_append.mp hc with h | h
    · exact hInv.noBlank c h
    · rw [List.mem_singleton.mp h]
      exact variable_name_ne_empty _
  · show (s.headers ++ [key]).Nodup
    rw [List.nodup_append]
    exact ⟨hInv.nodup, List.nodup_singleton _,
      fun a ha hb => hnotmem ((List.mem_singleton.mp hb) ▸ ha)⟩
  · show (s.headers ++ [key]).head? = some "Date"
    rw [hht]
    have := hInv.dateFirst
    rw [hht] at this
    simpa using this
  · show ∀ r ∈ s.tableData.map
      (fun row => setProp row key (Value.vNum (JNum.fin 0))), _
    intro r' hr'
    obtain ⟨r, hr, rfl⟩ := List.mem_map.mp hr'
    obtain ⟨hnd, hiff⟩ := hInv.rows r hr
    have hknot : key ∉ rowKeys r := fun h => hnotmem ((hiff key).mp h)
    rw [setProp_append_of_not_mem hknot, rowKeys_append,
        show rowKeys [(key, Value.vNum (JNum.fin 0))] = [key] from rfl]
    constructor
    · rw [List.nodup_append]
      exact ⟨hnd, List.nodup_singleton _,
        fun a ha hb => hknot ((List.mem_singleton.mp hb) ▸ ha)⟩
    · intro k
      rw [List.mem_append, List.mem_append]
      constructor
      · intro h
        rcases h with h | h
        · exact Or.inl ((hiff k).mp h)
        · exact Or.inr (by simpa using h)
      · intro h
        rcases h with h | h
        · exact Or.inl ((hiff k).mpr h)
        · exact Or.inr (by simpa using h)

theorem renameResultState_mk (s : AppState) (d : String) :
    (RenameResult.mk s d).state = s := rfl

/-- The header blur handler preserves the invariant for every event on an
existing non-Date header. -/
theorem inv_renameBlur {s : AppState} (hInv : Inv s) (i : Nat) (raw : String)
    (hi : i < s.headers.length) (hiD : s.headers.getD i "" ≠ "Date") :
    Inv (renameBlur s i raw).state := by
  set A := s.headers.getD i "" with hA
  have hAmem : A ∈ s.headers := headers_getD_mem hi
  have hAne : A ≠ "" := hInv.noBlank A hAmem
  have hcols : getColumnHeaders s = s.headers :=
    getColumnHeaders_eq_headers hInv.nonempty hInv.noBlank
  by_cases h1 : jsTrim raw = "" ∨ A = ""
  · have : renameBlur s i raw = ⟨s, if A = "" then raw else A⟩ := by
      simp only [renameBlur]
      rw [← hA, if_pos h1]
    rw [this]
    exact hInv
  · by_cases h2 : jsTrim raw = A
    · have : renameBlur s i raw = ⟨s, raw⟩ := by
        simp only [renameBlur]
        rw [← hA, if_neg h1, if_pos h2]
      rw [this]
      exact hInv
    · by_cases h3 : jsTrim raw = "Date" ∨
        (jsTrim raw ≠ A ∧ jsTrim raw ∈ getColumnHeaders s)
      · have : renameBlur s i raw = ⟨s, A⟩ := by
          simp only [renameBlur]
          rw [← hA, if_neg h1, if_neg h2, if_pos h3]
        rw [this]
        exact hInv
      · push_neg at h1 h3
        set B := jsTrim raw with hB
        have hBne : B ≠ "" := h1.1
        have hBnD : B ≠ "Date" := h3.1
        have hBnotin : B ∉ s.headers := by
          intro h
          exact (h3.2 h2) (hcols ▸ h)
        have hInv2 : Inv
            { s with
              xAxis := if s.xAxis = A then setSelectValue s.xOptions B else s.xAxis
              yAxis1 := if s.yAxis1 = A then setSelectValue s.y1Options B else s.yAxis1
              yAxis2 := if s.yAxis2 = A then setSelectValue s.y2Options B else s.yAxis2
              tableData := s.tableData.map (fun row =>
                match getProp row A with
                | some v => delProp (setProp row B v) A
                | none => row)
              headers := s.headers.set i B } := by
          constructor
          · show s.headers.set i B ≠ []
            intro hcon
            have := congrArg List.length hcon
            rw [List.length_set] at this
            simp at this
            exact hInv.nonempty this
          · show ∀ c ∈ s.headers.set i B, c ≠ ""
            intro c hc
            rcases List.mem_or_eq_of_mem_set hc with h | h
            · exact hInv.noBlank c h
            · exact h ▸ hBne
          · exact nodup_set_of_not_mem hInv.nodup hBnotin i
          · show (s.headers.set i B).head? = some "Date"
            have hiz : i ≠ 0 := by
              intro hcon
              apply hiD
              rw [hA, hcon]
              obtain ⟨h0, t0, hht⟩ := List.exists_cons_of_ne_nil hInv.nonempty
              have hdf := hInv.dateFirst
              rw [hht] at hdf ⊢
              simp at hdf
              simpa using hdf
            rw [head?_set_of_ne_zero hiz]
            exact hInv.dateFirst
          · show ∀ r' ∈ s.tableData.map
              (fun row => match getProp row A with
                | some v => delProp (setProp row B v) A
                | none => row), _
            intro r' hr'
            obtain ⟨r, hr, rfl⟩ := List.mem_map.mp hr'
            obtain ⟨hnd, hiff⟩ := hInv.rows r hr
            have hAkeys : A ∈ rowKeys r := (hiff A).mpr hAmem
            have hBkeys : B ∉ rowKeys r := fun h => hBnotin ((hiff B).mp h)
            obtain ⟨v, hv⟩ := getProp_isSome_of_mem hAkeys
            have hfr : (match getProp r A with
                | some w => delProp (setProp r B w) A
                | none => r) = delProp (setProp r B v) A := by
              rw [hv]
            rw [hfr, setProp_append_of_not_mem hBkeys, rowKeys_delProp,
                rowKeys_append]
            have hfB : (rowKeys [(B, v)]).filter (fun x => x ≠ A) = [B] := by
              show (List.filter _ [B]) = [B]
              rw [List.filter_cons, if_pos (by simpa using (hB ▸ h2 : B ≠ A))]
              rfl
            rw [List.filter_append, hfB]
            have hsubf : ∀ k, k ∈ (rowKeys r).filter (fun x => x ≠ A) ↔
                (k ∈ rowKeys r ∧ k ≠ A) := by
              intro k
              rw [List.mem_filter]
              simp
            constructor
            · rw [List.nodup_append]
              refine ⟨List.Nodup.filter _ hnd, List.nodup_singleton _, ?_⟩
              intro a ha hb
              rw [List.mem_singleton.mp hb] at ha
              exact hBkeys ((hsubf B).mp ha).1
            · intro k
              rw [List.mem_append, hsubf k, List.mem_singleton,
                  mem_set_iff_of_nodup hInv.nodup hi hA.symm]
              constructor
              · intro h
                rcases h with ⟨h4, h5⟩ | h4
                · exact Or.inl ⟨(hiff k).mp h4, h5⟩
                · exact Or.inr h4
              · intro h
                rcases h with ⟨h4, h5⟩ | h4
                · exact Or.inl ⟨(hiff k).mpr h4, h5⟩
                · exact Or.inr h4
        rw [congrArg RenameResult.state (renameBlur_commit s i raw h1.1
            (by rw [← hA]; exact h1.2) (by rw [← hA, ← hB]; exact h2)
            (by rw [← hA, ← hB]; push_neg; exact h3)),
          renameResultState_mk]
        exact inv_updateDropdown hInv2 _ _ _

theorem inv_applyOp {s : AppState} (hInv : Inv s) (op : ColumnOp)
    (hsafe : (match op with
      | ColumnOp.add => addFresh s
      | ColumnOp.rename _ _ => true) = true) :
    Inv (applyOp s op) := by
  cases op with
  | add => exact inv_addColumn hInv hsafe
  | rename i raw =>
    show Inv (if i < s.headers.length ∧ s.headers.getD i "" ≠ "Date" then
      (renameBlur s i raw).state else s)
    by_cases hc : i < s.headers.length ∧ s.headers.getD i "" ≠ "Date"
    · rw [if_pos hc]
      exact inv_renameBlur hInv i raw hc.1 hc.2
    · rw [if_neg hc]
      exact hInv

theorem inv_runOps {s : AppState} (ops : List ColumnOp) (hInv : Inv s)
    (hsafe : opsSafe s ops = true) : Inv (runOps s ops) := by
  induction ops generalizing s with
  | nil => exact hInv
  | cons op rest ih =>
    unfold opsSafe at hsafe
    rw [Bool.and_eq_true] at hsafe
    unfold runOps
    rw [List.foldl_cons]
    exact ih (inv_applyOp hInv op hsafe.1) hsafe.2

theorem loadState_inv (data : List Row) (hwf : WellFormedData data) :
    Inv (loadState data) := by
  unfold loadState
  apply inv_updateDropdown
  cases data with
  | nil =>
    refine ⟨by simp, ?_, by decide, rfl, by intro r hr; simp at hr⟩
    intro c hc
    fin_cases hc <;> decide
  | cons r0 rest =>
    obtain ⟨hdate, hrows⟩ := hwf
    have hnd0 := (hrows r0 (List.mem_cons_self _ _)).1
    constructor
    · show "Date" :: (rowKeys r0).filter (fun c => c ≠ "Date") ≠ []
      simp
    · show ∀ c ∈ "Date" :: (rowKeys r0).filter (fun c => c ≠ "Date"), c ≠ ""
      intro c hc
      rcases List.mem_cons.mp hc with rfl | hc
      · decide
      · have := (List.mem_filter.mp hc).1
        intro hcon
        exact (hrows r0 (List.mem_cons_self _ _)).2.1 (hcon ▸ this)
    · show ("Date" :: (rowKeys r0).filter (fun c => c ≠ "Date")).Nodup
      refine List.nodup_cons.mpr ⟨?_, List.Nodup.filter _ hnd0⟩
      intro h
      have := (List.mem_filter.mp h).2
      simp at this
    · rfl
    · show ∀ r ∈ r0 :: rest, _
      intro r hr
      obtain ⟨hnd, hblank, hsub, hsup⟩ := hrows r hr
      refine ⟨hnd, ?_⟩
      intro k
      rw [List.mem_cons, List.mem_filter]
      constructor
      · intro h
        by_cases hk : k = "Date"
        · exact Or.inl hk
        · exact Or.inr ⟨hsub k h, by simpa using hk⟩
      · intro h
        rcases h with rfl | ⟨h4, _⟩
        · exact hsup "Date" hdate
        · exact hsup k h4

/-- Claim C1 (amended): loading well-formed server data establishes the
column identity invariant; every sequence of add-column and rename
operations in which each addColumn happens to synthesize an identifier that
is not already a column identifier preserves it, with Date always present
and first; and under that freshness proviso an addColumn leaves every
existing column's values untouched and gives the new identifier the value 0
in every row.  (Without the proviso the counter-generated name can collide
with an existing column, see the counterexample.) -/
theorem column_identity_invariant :
    (∀ data : List Row, WellFormedData data → Inv (loadState data)) ∧
    (∀ (s : AppState) (ops : List ColumnOp), Inv s → opsSafe s ops = true →
      Inv (runOps s ops) ∧ (runOps s ops).headers.head? = some "Date") ∧
    (∀ s : AppState, Inv s → addFresh s = true →
      ("Variable " ++ toString s.columnCounter) ∉ s.headers ∧
      ∀ j, j < s.tableData.length →
        (∀ k ∈ rowKeys (s.tableData.getD j []),
          getProp ((addColumn s).tableData.getD j []) k =
            getProp (s.tableData.getD j []) k) ∧
        getProp ((addColumn s).tableData.getD j [])
          ("Variable " ++ toString s.columnCounter) =
            some (Value.vNum (JNum.fin 0))) := by
  refine ⟨loadState_inv, ?_, ?_⟩
  · intro s ops hInv hsafe
    have h := inv_runOps ops hInv hsafe
    exact ⟨h, h.dateFirst⟩
  · intro s hInv hfresh
    have hnotmem := addFresh_not_mem hfresh
    refine ⟨hnotmem, ?_⟩
    intro j hj
    have hmap : (addColumn s).tableData.getD j [] =
        setProp (s.tableData.getD j []) ("Variable " ++ toString s.columnCounter)
          (Value.vNum (JNum.fin 0)) := by
      show (s.tableData.map _).getD j [] = _
      have hjm : j < (s.tableData.map (fun row =>
          setProp row ("Variable " ++ toString s.columnCounter)
            (Value.vNum (JNum.fin 0)))).length := by
        rw [List.length_map]; exact hj
      rw [List.getD_eq_getElem _ [] hjm, List.getD_eq_getElem _ [] hj]
      exact List.getElem_map _
    rw [hmap]
    obtain ⟨hnd, hiff⟩ := hInv.rows (s.tableData.getD j [])
      (by rw [List.getD_eq_getElem _ [] hj]; exact List.getElem_mem hj)
    constructor
    · intro k hk
      have hkne : k ≠ ("Variable " ++ toString s.columnCounter) := by
        intro hcon
        exact hnotmem (hcon ▸ (hiff k).mp hk)
      exact getProp_setProp_other _ _ _ hkne
    · exact getProp_setProp_self _ _ _

/-- Witness for claim C1: loading the example data and then adding a fresh
column and renaming it keeps the invariant. -/
theorem column_identity_invariant_witness :
    Inv (runOps (loadState [exRow]) [ColumnOp.add, ColumnOp.rename 1 "Steps"]) := by
  obtain ⟨hload, hrun, hadd⟩ := column_identity_invariant
  exact (hrun (loadState [exRow]) [ColumnOp.add, ColumnOp.rename 1 "Steps"]
    (hload [exRow] (by constructor <;> decide)) (by decide)).1

def c1Row : Row :=
  [("Date", Value.vStr "2024-01-01"), ("Variable 2", Value.vNum (JNum.fin 7))]

/-- Counterexample for claim C1 as frozen: loading a dataset whose only
non-Date column is named "Variable 2" sets the counter to 2, so the next
addColumn synthesizes "Variable 2", which is already a column identifier,
and the add overwrites that column's value 7 with 0 in the existing row. -/
theorem addColumn_collision_counterexample :
    WellFormedData [c1Row] ∧
    ("Variable " ++ toString (loadState [c1Row]).columnCounter) ∈
      (loadState [c1Row]).headers ∧
    getProp ((loadState [c1Row]).tableData.getD 0 []) "Variable 2" =
      some (Value.vNum (JNum.fin 7)) ∧
    getProp ((addColumn (loadState [c1Row])).tableData.getD 0 []) "Variable 2" =
      some (Value.vNum (JNum.fin 0)) ∧
    Value.vNum (JNum.fin 0) ≠ Value.vNum (JNum.fin 7) := by
  refine ⟨by constructor <;> decide, by decide, by decide, by decide, by decide⟩

end DataPlotter
